import Mathlib

/-!
# Round-robin task scheduler (`Src/main.c`): a shallow embedding

The scheduler keeps three globals (`psp_of_tasks`, `task_handlers`, `current_task`),
fabricates one exception frame per task in that task's stack memory, and switches
context in `SysTick_Handler`.

Conventions of the embedding:

* `uint32_t` values are naturals reduced modulo `2^32`, `uint8_t` values modulo `2^8`;
* memory is byte addressed; a word access touches the four bytes at `a .. a+3`
  (addresses wrap modulo `2^32`, bytes are laid out little-endian);
* the globals are kept apart from the addressed memory, so a store through a stack
  pointer never aliases the scheduler's own variables;
* the constants of `main.h` (`MAX_TASKS`, `SYSTICK_TIM_CLK`, the stack tops) are not part
  of the sources at hand; functions take them as parameters.
-/

namespace Sched

/-! ## Machine words -/

/-- Number of values of a `uint32_t`. -/
def W32 : Nat := 4294967296

/-- Number of values of a `uint8_t`. -/
def W8 : Nat := 256

/-- Subtraction in `uint32_t` arithmetic. -/
def sub32 (a b : Nat) : Nat := (a + W32 - b % W32) % W32

/-- Addition in `uint32_t` arithmetic. -/
def add32 (a b : Nat) : Nat := (a + b) % W32

/-! ## Byte-addressed memory -/

/-- Memory: byte address to byte. -/
abbrev Mem := Nat → Nat

/-- Store one byte (address and value are truncated to their widths). -/
def storeByte (m : Mem) (a v : Nat) : Mem :=
  fun x => if x = a % W32 then v % W8 else m x

/-- Load one byte. -/
def loadByte (m : Mem) (a : Nat) : Nat := m (a % W32) % W8

/-- Word store `STR v, [a]` / `*(uint32_t *)a = v`. -/
def STR (m : Mem) (a v : Nat) : Mem :=
  storeByte (storeByte (storeByte (storeByte m a v) (a + 1) (v / 256)) (a + 2) (v / 65536))
    (a + 3) (v / 16777216)

/-- Word load `LDR [a]` / `*(uint32_t *)a`. -/
def LDR (m : Mem) (a : Nat) : Nat :=
  loadByte m a + 256 * loadByte m (a + 1) + 65536 * loadByte m (a + 2)
    + 16777216 * loadByte m (a + 3)

/-! ## Scheduler globals -/

/-- The globals of `main.c` (lines 17-19). The two arrays have `MAX_TASKS` slots; the
task count is passed to every function that depends on it. -/
structure State where
  /-- The array `uint32_t psp_of_tasks[MAX_TASKS]`. -/
  psp_of_tasks : Nat → Nat
  /-- The array `uint32_t task_handlers[MAX_TASKS]`. -/
  task_handlers : Nat → Nat
  /-- The index `uint8_t current_task`. -/
  current_task : Nat

/-- `get_psp_value` (lines 96-98): `return psp_of_tasks[current_task];`
An index outside the array is reported as `none`. -/
def get_psp_value (N : Nat) (s : State) : Option Nat :=
  if s.current_task < N then some (s.psp_of_tasks s.current_task) else none

/-- `save_psp_value` (lines 100-102): `psp_of_tasks[current_task]=current_psp_value;`
An index outside the array is reported as `none`. -/
def save_psp_value (N : Nat) (current_psp_value : Nat) (s : State) : Option State :=
  if s.current_task < N then
    some { s with psp_of_tasks :=
      fun i => if i = s.current_task then current_psp_value % W32 else s.psp_of_tasks i }
  else none

/-- `update_next_task` (lines 104-107): `current_task++; current_task %= MAX_TASKS;`
Both assignments store into a `uint8_t`. -/
def update_next_task (N : Nat) (s : State) : State :=
  let s1 := { s with current_task := (s.current_task + 1) % W8 }
  { s1 with current_task := (s1.current_task % N) % W8 }

/-- The state after `k` context switches, as far as the task index goes: `k` calls of
`update_next_task`. -/
def ticks (N : Nat) : Nat → State → State
  | 0, s => s
  | k + 1, s => update_next_task N (ticks N k s)

/-- The globals as `main.c` initialises them: `current_task=0`, the given stack tops,
and the handler table. -/
def boot (tops handlers : Nat → Nat) : State :=
  { psp_of_tasks := tops, task_handlers := handlers, current_task := 0 }

/-- The shipped task count. Modelled from the spec: `main.h`, which defines
`MAX_TASKS`, is not among the sources; the spec's scenario has four tasks, the
initialiser of `psp_of_tasks` lists four stack tops and `main` registers four handlers. -/
def MAX_TASKS : Nat := 4

/-- The indices made active by a window of `N` consecutive ticks that starts in state
`s`, in the order of activation. -/
def window (N : Nat) (s : State) : List Nat :=
  (List.range N).map (fun j => (ticks N (j + 1) s).current_task)

/-- Calls of the three C helpers, as the handler issues them. -/
inductive Call where
  | update
  | save (v : Nat)
  | get

/-- Run a sequence of helper calls; `none` as soon as an array access is out of
bounds. -/
def run (N : Nat) : List Call → State → Option State
  | [], s => some s
  | Call.update :: cs, s => run N cs (update_next_task N s)
  | Call.save v :: cs, s =>
    match save_psp_value N v s with
    | some s1 => run N cs s1
    | none => none
  | Call.get :: cs, s =>
    match get_psp_value N s with
    | some _ => run N cs s
    | none => none

/-! ## The stack layout builder -/

/-- The status word stored first; line 194 of `main.c` gives the value of the macro. -/
def DUMMY_XPSR : Nat := 0x01000000

/-- The exception-return code stored third (line 200). -/
def EXC_RETURN : Nat := 0xFFFFFFFD

/-- Number of bits set in a 32-bit word. -/
def popcount32 (v : Nat) : Nat := (List.range 32).countP (fun b => v.testBit b)

/-- Local state of one iteration of the outer loop of `init_tasks_stack`: the memory,
the pointer `pPSP`, and a record of the stores made so far, each as the pair of the
word address and the value stored (oldest first). -/
structure Frame where
  /-- The memory. -/
  mem : Mem
  /-- The local `uint32_t *pPSP`, as an address. -/
  pPSP : Nat
  /-- The stores of this iteration: word address and value. -/
  written : List (Nat × Nat)

/-- The statement pair `pPSP--; *pPSP = v;` (full-descending stack). -/
def push (f : Frame) (v : Nat) : Frame :=
  let p := sub32 f.pPSP 4
  { mem := STR f.mem p v, pPSP := p, written := f.written ++ [(p, v)] }

/-- The inner loop `for(int j=0;j<13;j++){ pPSP--; *pPSP=0; }` run for `n` rounds. -/
def push_zeros : Nat → Frame → Frame
  | 0, f => f
  | n + 1, f => push_zeros n (push f 0)

/-- Body of the outer loop of `init_tasks_stack` up to the last store (lines 191-205),
for a task with stack top `top` and entry point `handler`. -/
def init_task_frame (top handler : Nat) (m : Mem) : Frame :=
  let f : Frame := { mem := m, pPSP := top, written := [] }
  let f := push f DUMMY_XPSR
  let f := push f handler
  let f := push f EXC_RETURN
  push_zeros 13 f

/-- Push the values of a list one after the other; `init_task_frame` is an instance. -/
def push_all (f : Frame) : List Nat → Frame
  | [] => f
  | v :: vs => push_all (push f v) vs

/-- The sixteen values of a fabricated frame, in the order they are stored. -/
def frame_values (handler : Nat) : List Nat :=
  [DUMMY_XPSR, handler, EXC_RETURN] ++ List.replicate 13 0

/-- The `d`-th byte below the address `top` (`d = 0` is the byte at `top - 1`). -/
def frame_byte (top d : Nat) : Nat := (top + W32 - 1 - d) % W32

/-- The 64 bytes below each of the first `N` stack tops, the part of every task's stack
region that the builder stores to, are pairwise disjoint. -/
def frames_disjoint (N : Nat) (tops : Nat → Nat) : Prop :=
  ∀ i j, i < N → j < N → i ≠ j →
    ∀ d e, d < 64 → e < 64 → frame_byte (tops i) d ≠ frame_byte (tops j) e

/-- What `init_tasks_stack` leaves behind: the globals, the memory, and for every
iteration of the outer loop the record of the stores it made. -/
structure Built where
  /-- The globals. -/
  g : State
  /-- The memory. -/
  mem : Mem
  /-- The stores made, one list per task, in task order. -/
  trace : List (List (Nat × Nat))

/-- One iteration of the outer loop of `init_tasks_stack` (lines 191-206) for index `i`. -/
def init_task (i : Nat) (b : Built) : Built :=
  let f := init_task_frame (b.g.psp_of_tasks i) (b.g.task_handlers i) b.mem
  { g := { b.g with psp_of_tasks := fun k => if k = i then f.pPSP else b.g.psp_of_tasks k },
    mem := f.mem,
    trace := b.trace ++ [f.written] }

/-- The outer loop of `init_tasks_stack` after its first `n` iterations `i = 0 .. n-1`. -/
def init_tasks_loop (b : Built) : Nat → Built
  | 0 => b
  | n + 1 => init_task n (init_tasks_loop b n)

/-- `init_tasks_stack` (lines 188-209) with `MAX_TASKS = N`. -/
def init_tasks_stack (N : Nat) (s : State) (m : Mem) : Built :=
  init_tasks_loop { g := s, mem := m, trace := [] } N

/-- An example configuration: four stack tops 1 KiB apart below `0x20001000`, and four
entry points in flash. -/
def sample : State :=
  boot (fun i => 0x20001000 - 0x400 * i) (fun i => 0x08000101 + 0x20 * i)

/-- An example memory: every byte holds `0xAA`. -/
def sample_mem : Mem := fun _ => 0xAA

/-! ## Processor state and the SysTick handler -/

/-- The registers of the core that the scheduler touches. -/
structure Cpu where
  r0 : Nat
  r1 : Nat
  r2 : Nat
  r3 : Nat
  r4 : Nat
  r5 : Nat
  r6 : Nat
  r7 : Nat
  r8 : Nat
  r9 : Nat
  r10 : Nat
  r11 : Nat
  r12 : Nat
  lr : Nat
  pc : Nat
  xpsr : Nat
  psp : Nat
  msp : Nat
  control : Nat

/-- All registers hold 32-bit values. -/
def Cpu.valid (c : Cpu) : Prop :=
  c.r0 < W32 ∧ c.r1 < W32 ∧ c.r2 < W32 ∧ c.r3 < W32 ∧ c.r4 < W32 ∧ c.r5 < W32 ∧
  c.r6 < W32 ∧ c.r7 < W32 ∧ c.r8 < W32 ∧ c.r9 < W32 ∧ c.r10 < W32 ∧ c.r11 < W32 ∧
  c.r12 < W32 ∧ c.lr < W32 ∧ c.pc < W32 ∧ c.xpsr < W32 ∧ c.psp < W32 ∧ c.msp < W32 ∧
  c.control < W32

/-- The save sequence of `SysTick_Handler` (lines 130-152). -/
def save_context (c : Cpu) (m : Mem) : Cpu × Mem :=
  let c := { c with r0 := c.psp }             -- MRS R0,PSP
  let c := { c with r0 := sub32 c.r0 32 }      -- SUB R0, R0, #32
  let m := STR m (c.r0 + 0) c.r4               -- STR R4, [R0, #0]
  let m := STR m (c.r0 + 4) c.r5               -- STR R5, [R0, #4]
  let m := STR m (c.r0 + 8) c.r6               -- STR R6, [R0, #8]
  let m := STR m (c.r0 + 12) c.r7              -- STR R7, [R0, #12]
  let c := { c with r1 := c.r8 }               -- MOV R1, R8
  let m := STR m (c.r0 + 16) c.r1              -- STR R1, [R0, #16]
  let c := { c with r1 := c.r9 }               -- MOV R1, R9
  let m := STR m (c.r0 + 20) c.r1              -- STR R1, [R0, #20]
  let c := { c with r1 := c.r10 }              -- MOV R1, R10
  let m := STR m (c.r0 + 24) c.r1              -- STR R1, [R0, #24]
  let c := { c with r1 := c.r11 }              -- MOV R1, R11
  let m := STR m (c.r0 + 28) c.r1              -- STR R1, [R0, #28]
  (c, m)

/-- The restore sequence of `SysTick_Handler` (lines 166-183); on entry `R0` holds the
pointer returned by `get_psp_value`. -/
def restore_context (c : Cpu) (m : Mem) : Cpu :=
  let c := { c with r4 := LDR m (c.r0 + 0) }   -- LDR R4, [R0, #0]
  let c := { c with r5 := LDR m (c.r0 + 4) }   -- LDR R5, [R0, #4]
  let c := { c with r6 := LDR m (c.r0 + 8) }   -- LDR R6, [R0, #8]
  let c := { c with r7 := LDR m (c.r0 + 12) }  -- LDR R7, [R0, #12]
  let c := { c with r1 := LDR m (c.r0 + 16) }  -- LDR R1, [R0, #16]
  let c := { c with r8 := c.r1 }               -- MOV R8, R1
  let c := { c with r1 := LDR m (c.r0 + 20) }  -- LDR R1, [R0, #20]
  let c := { c with r9 := c.r1 }               -- MOV R9, R1
  let c := { c with r1 := LDR m (c.r0 + 24) }  -- LDR R1, [R0, #24]
  let c := { c with r10 := c.r1 }              -- MOV R10, R1
  let c := { c with r1 := LDR m (c.r0 + 28) }  -- LDR R1, [R0, #28]
  let c := { c with r11 := c.r1 }              -- MOV R11, R1
  let c := { c with r0 := add32 c.r0 32 }      -- ADD R0, R0, #32
  { c with psp := c.r0 }                       -- MSR PSP,R0

/-- The tail of `SysTick_Handler` (lines 162-185) after `get_psp_value` has returned
`v` in `R0`: the restore sequence, then `MOV LR, R12`. -/
def dispatch (c : Cpu) (v : Nat) (m : Mem) : Cpu :=
  let c := { c with r0 := v }
  let c := restore_context c m
  { c with lr := c.r12 }                       -- MOV LR, R12

/-- The branch-and-link instruction: `LR` receives the address `ret` of the instruction
that follows. -/
def BL (ret : Nat) (c : Cpu) : Cpu := { c with lr := ret }

/-- `SysTick_Handler` (lines 125-187) up to, not including, the final `BX LR`.
`ret k` is the code address after the `k`-th `BL`. The three C helpers are taken to
leave `R1`-`R3` and `R12` as they found them. -/
def SysTick_Handler (N : Nat) (ret : Nat → Nat) (c : Cpu) (s : State) (m : Mem) :
    Option (Cpu × State × Mem) :=
  let (c, m) := save_context c m
  let c := { c with r12 := c.lr }              -- MOV R12, LR
  let c := BL (ret 0) c                        -- BL save_psp_value
  match save_psp_value N c.r0 s with
  | none => none
  | some s =>
    let c := BL (ret 1) c                      -- BL update_next_task
    let s := update_next_task N s
    let c := BL (ret 2) c                      -- BL get_psp_value
    match get_psp_value N s with
    | none => none
    | some v =>
      some (dispatch c v m, s, m)

/-- `init_scheduler_stack` (lines 90-95): `MSR MSP,R0` with the argument in `R0`, then
`BX LR`. -/
def init_scheduler_stack (sched_top_of_stack : Nat) (c : Cpu) : Cpu :=
  let c := { c with r0 := sched_top_of_stack }
  { c with msp := c.r0 }                       -- MSR MSP,%0

/-- `switch_sp_to_psp` (lines 108-123) up to, not including, the final `BX LR`; `ret` is
the code address after the `BL`. The callee `get_psp_value` only reads the globals, so
they are handed back as they came; it is taken to leave `R1` as it found it. -/
def switch_sp_to_psp (N : Nat) (ret : Nat) (c : Cpu) (s : State) : Option (Cpu × State) :=
  let c := { c with r1 := c.lr }               -- MOV R1, LR
  let c := BL ret c                            -- BL get_psp_value
  match get_psp_value N s with
  | none => none
  | some v =>
    let c := { c with r0 := v }
    let c := { c with psp := c.r0 }            -- MSR PSP,R0
    let c := { c with lr := c.r1 }             -- MOV LR, R1
    let c := { c with r0 := 0x02 }             -- MOV R0,#0X02
    some ({ c with control := c.r0 }, s)       -- MSR CONTROL,R0

/-- The exception return performed by the core on `BX LR` with `LR = 0xFFFFFFFD`:
eight words are popped from the process stack, in the order `R0, R1, R2, R3, R12, LR,
PC, xPSR` (the order in which `init_tasks_stack` labels the words it stores, read
upwards). -/
def exception_return (c : Cpu) (m : Mem) : Cpu :=
  { c with
    r0 := LDR m (c.psp + 0),
    r1 := LDR m (c.psp + 4),
    r2 := LDR m (c.psp + 8),
    r3 := LDR m (c.psp + 12),
    r12 := LDR m (c.psp + 16),
    lr := LDR m (c.psp + 20),
    pc := LDR m (c.psp + 24),
    xpsr := LDR m (c.psp + 28),
    psp := add32 c.psp 32 }

/-- Resuming a task whose saved pointer is `v`: the tail of the handler followed by
the exception return of the final `BX LR`. -/
def resume (c : Cpu) (v : Nat) (m : Mem) : Cpu :=
  exception_return (dispatch c v m) m

/-- An example register file. -/
def sample_cpu : Cpu :=
  { r0 := 1, r1 := 2, r2 := 3, r3 := 4, r4 := 0x44444444, r5 := 0x55555555,
    r6 := 0x66666666, r7 := 0x77777777, r8 := 0x88888888, r9 := 0x99999999,
    r10 := 0xAAAAAAAA, r11 := 0xBBBBBBBB, r12 := 0xCCCCCCCC, lr := 0xFFFFFFFD,
    pc := 0x08000200, xpsr := 0x0100000F, psp := 0x20000F00, msp := 0x20002000,
    control := 2 }

/-- Another example register file, as a different task would leave it. -/
def other_cpu : Cpu :=
  { r0 := 9, r1 := 8, r2 := 7, r3 := 6, r4 := 4, r5 := 5, r6 := 6, r7 := 7, r8 := 8,
    r9 := 9, r10 := 10, r11 := 11, r12 := 12, lr := 0x08000300, pc := 0x08000400,
    xpsr := 0x01000000, psp := 0x20000B00, msp := 0x20002000, control := 2 }

/-! ## The SysTick timer -/

/-- The three SysTick registers the code programs: control/status at `0xE000E010`,
reload value at `0xE000E014`, current value at `0xE000E018`. -/
structure SysTick where
  /-- The word behind `pSCSR`. -/
  csr : Nat
  /-- The word behind `pSRVR`. -/
  rvr : Nat
  /-- The word behind `pSCVR`. -/
  cvr : Nat

/-- Bitwise complement of a 32-bit word. -/
def not32 (x : Nat) : Nat := W32 - 1 - x % W32

/-- `init_systick_timer` (lines 70-88); `clk` stands for the macro `SYSTICK_TIM_CLK`. -/
def init_systick_timer (clk tick_hz : Nat) (t : SysTick) : SysTick :=
  let t := { t with cvr := 0 }                               -- *pSCVR = 0;
  let count_value := sub32 ((clk / tick_hz) % W32) 1         -- (SYSTICK_TIM_CLK/tick_hz)-1
  let t := { t with rvr := (t.rvr &&& not32 0x00FFFFFF) % W32 }   -- *pSRVR &= ~(0x00FFFFFF);
  let t := { t with rvr := (t.rvr ||| count_value) % W32 }   -- *pSRVR |= count_value;
  let t := { t with csr := (t.csr ||| (1 <<< 1)) % W32 }     -- *pSCSR |= (1<<1);
  let t := { t with csr := (t.csr ||| (1 <<< 2)) % W32 }     -- *pSCSR |= (1<<2);
  let t := { t with csr := (t.csr ||| (1 <<< 0)) % W32 }     -- *pSCSR |= (1<<0);
  t

/-- The value the reload-value register holds. SysTick counts in 24 bits: the reload
value is bits 0-23 of the word behind `pSRVR`, the field that lines 76-77 clear with the
mask `0x00FFFFFF` ("clear value of RVR"); bits 24-31 are reserved, are not kept by the
register and read as zero. -/
def reload_register (t : SysTick) : Nat := t.rvr % 16777216

/-- The local `count_value` of `init_systick_timer` (line 75):
`(SYSTICK_TIM_CLK/tick_hz)-1` in `uint32_t` arithmetic. -/
def count_value (clk tick_hz : Nat) : Nat := sub32 ((clk / tick_hz) % W32) 1

/-! ## Distances between stack tops -/

/-- The stack tops of the first `N` tasks are pairwise at least 64 bytes apart. -/
def tops_apart (N : Nat) (tops : Nat → Nat) : Prop :=
  ∀ i j, i < N → j < N → i ≠ j → tops i + 64 ≤ tops j ∨ tops j + 64 ≤ tops i

/-- The same distance measured on the 32-bit address ring: going down from one top to
another takes at least 64 bytes, in either direction. -/
def tops_apart32 (N : Nat) (tops : Nat → Nat) : Prop :=
  ∀ i j, i < N → j < N → i ≠ j → 64 ≤ sub32 (tops i) (tops j)

/-- Two words, given by their addresses, have a byte in common. -/
def words_overlap (a b : Nat) : Prop :=
  ∃ y z, y < 4 ∧ z < 4 ∧ (a + y) % W32 = (b + z) % W32

/-- What disjoint frames mean for a run of `init_tasks_stack`: no store made for one
task touches a word stored for another task, and at the end every word of every frame
holds the value the builder stored there. -/
def frames_intact (N : Nat) (s : State) (m : Mem) : Prop :=
  (∀ i j wi wj, i < N → j < N → i ≠ j →
    (init_tasks_stack N s m).trace[i]? = some wi →
    (init_tasks_stack N s m).trace[j]? = some wj →
    ∀ a b, a ∈ wi.map Prod.fst → b ∈ wj.map Prod.fst → ¬ words_overlap a b) ∧
  (∀ i k, i < N → k < 16 →
    LDR (init_tasks_stack N s m).mem (sub32 (s.psp_of_tasks i) (4 * (k + 1)))
      = (frame_values (s.task_handlers i)).getD k 0 % W32)

/-- An example configuration with two stack tops only 32 bytes apart. -/
def cramped : State :=
  boot (fun i => 0x20001000 - 0x20 * i) (fun i => 0x08000101 + 0x20 * i)

/-! ## The round-robin selector -/

theorem update_next_task_current (N : Nat) (s : State) :
    (update_next_task N s).current_task = (((s.current_task + 1) % 256) % N) % 256 := rfl

theorem update_next_task_psp (N : Nat) (s : State) :
    (update_next_task N s).psp_of_tasks = s.psp_of_tasks := rfl

theorem update_next_task_handlers (N : Nat) (s : State) :
    (update_next_task N s).task_handlers = s.task_handlers := rfl

/-- With at most 256 tasks the 8-bit index never wraps: `k` ticks add `k` modulo `N`. -/
theorem ticks_current_small (N : Nat) (hN : 1 ≤ N) (h256 : N ≤ 256) (s : State)
    (hs : s.current_task < N) (k : Nat) :
    (ticks N k s).current_task = (s.current_task + k) % N := by
  induction k with
  | zero => simp [ticks, Nat.mod_eq_of_lt hs]
  | succ k ih =>
    have hlt : (s.current_task + k) % N < N := Nat.mod_lt _ (by omega)
    have h1 : ((s.current_task + k) % N + 1) % 256 % N % 256
        = ((s.current_task + k) % N + 1) % N := by
      have h2 : ((s.current_task + k) % N + 1) % N < N := Nat.mod_lt _ (by omega)
      rcases Nat.lt_or_ge ((s.current_task + k) % N + 1) 256 with h | h
      · rw [Nat.mod_eq_of_lt h, Nat.mod_eq_of_lt (by omega)]
      · have hN256 : N = 256 := by omega
        subst hN256
        simp
    simp only [ticks, update_next_task_current, ih, h1]
    rw [Nat.add_mod ((s.current_task + k) % N) 1 N, Nat.mod_mod, ← Nat.add_mod, Nat.add_assoc]

/-- With 256 tasks or more the index is the tick count modulo 256, whatever `N` is. -/
theorem ticks_current_large (N : Nat) (h256 : 256 ≤ N) (s : State)
    (hs : s.current_task < 256) (k : Nat) :
    (ticks N k s).current_task = (s.current_task + k) % 256 := by
  induction k with
  | zero => simp [ticks, Nat.mod_eq_of_lt hs]
  | succ k ih =>
    simp only [ticks, update_next_task_current, ih]
    have hlt : ((s.current_task + k) % 256 + 1) % 256 < 256 := Nat.mod_lt _ (by omega)
    have hN : ((s.current_task + k) % 256 + 1) % 256 % N
        = ((s.current_task + k) % 256 + 1) % 256 := Nat.mod_eq_of_lt (by omega)
    rw [hN]
    omega

/-- C1, as amended: with `1 ≤ N ≤ 256` tasks and `current_task = 0` at the start, the
index after `k` calls of `update_next_task` is `k mod N`. -/
theorem C1_index_after_k_ticks (N k : Nat) (tops handlers : Nat → Nat)
    (hN : 1 ≤ N) (h256 : N ≤ 256) :
    (ticks N k (boot tops handlers)).current_task = k % N := by
  have h := ticks_current_small N hN h256 (boot tops handlers) (by simp [boot]; omega) k
  simpa [boot] using h

theorem C1_index_after_k_ticks_witness :
    1 ≤ 4 ∧ 4 ≤ 256 ∧
    (ticks 4 5 (boot (fun _ => 0) (fun _ => 0))).current_task = 5 % 4 :=
  ⟨by decide, by decide, C1_index_after_k_ticks 4 5 (fun _ => 0) (fun _ => 0) (by decide) (by decide)⟩

/-- C1 as stated fails for `N = 257`: after 256 ticks the 8-bit index has wrapped to 0,
while `256 mod 257 = 256`. -/
theorem C1_counterexample :
    1 ≤ 257 ∧ ¬ ((ticks 257 256 (boot (fun _ => 0) (fun _ => 0))).current_task = 256 % 257) := by
  refine ⟨by decide, ?_⟩
  rw [ticks_current_large 257 (by decide) _ (by simp [boot]) 256]
  simp [boot]

theorem window_length (N : Nat) (s : State) : (window N s).length = N := by
  simp [window]

/-- In a window the `j`-th activated index is `(c + 1 + j) mod N`. -/
theorem window_eq_small (N : Nat) (hN : 1 ≤ N) (h256 : N ≤ 256) (s : State)
    (hs : s.current_task < N) :
    window N s = (List.range N).map (fun j => (s.current_task + 1 + j) % N) := by
  unfold window
  apply List.map_congr_left
  intro j _
  rw [ticks_current_small N hN h256 s hs (j + 1)]
  congr 1
  omega

theorem rotation_injOn (N c : Nat) (j1 j2 : Nat) (h1 : j1 < N) (h2 : j2 < N)
    (h : (c + 1 + j1) % N = (c + 1 + j2) % N) : j1 = j2 := by
  have h3 : j1 % N = j2 % N := Nat.ModEq.add_left_cancel' (c + 1) h
  rwa [Nat.mod_eq_of_lt h1, Nat.mod_eq_of_lt h2] at h3

theorem window_perm_small (N : Nat) (hN : 1 ≤ N) (h256 : N ≤ 256) (s : State)
    (hs : s.current_task < N) : (window N s).Perm (List.range N) := by
  have hnd : (window N s).Nodup := by
    rw [window_eq_small N hN h256 s hs]
    apply List.Nodup.map_on _ (List.nodup_range N)
    intro j1 h1 j2 h2 h
    exact rotation_injOn N s.current_task j1 j2 (List.mem_range.mp h1) (List.mem_range.mp h2) h
  have hsub : window N s ⊆ List.range N := by
    rw [window_eq_small N hN h256 s hs]
    intro x hx
    rcases List.mem_map.mp hx with ⟨j, _, rfl⟩
    exact List.mem_range.mpr (Nat.mod_lt _ (by omega))
  exact (List.subperm_of_subset hnd hsub).perm_of_length_le (by simp [window_length])

/-- C5, as amended: with `1 ≤ N ≤ 256` tasks and a valid starting index `c`, a window of
`N` consecutive ticks activates `N` indices, the `j`-th of them is `(c + 1 + j) mod N`
(registry order modulo `N`), and every index below `N` occurs exactly once. -/
theorem C5_window_each_task_once (N : Nat) (s : State)
    (hN : 1 ≤ N) (h256 : N ≤ 256) (hs : s.current_task < N) :
    (window N s).length = N ∧
    (∀ j, j < N → (window N s)[j]? = some ((s.current_task + 1 + j) % N)) ∧
    (∀ i, i < N → (window N s).count i = 1) := by
  refine ⟨window_length N s, ?_, ?_⟩
  · intro j hj
    rw [window_eq_small N hN h256 s hs]
    simp [hj]
  · intro i hi
    rw [(window_perm_small N hN h256 s hs).count_eq]
    exact List.count_eq_one_of_mem (List.nodup_range N) (List.mem_range.mpr hi)

theorem C5_window_each_task_once_witness :
    1 ≤ 4 ∧ 4 ≤ 256 ∧ (boot (fun _ => 0) (fun _ => 0)).current_task < 4 ∧
    ((window 4 (boot (fun _ => 0) (fun _ => 0))).length = 4 ∧
    (∀ j, j < 4 → (window 4 (boot (fun _ => 0) (fun _ => 0)))[j]?
        = some (((boot (fun _ => 0) (fun _ => 0)).current_task + 1 + j) % 4)) ∧
    (∀ i, i < 4 → (window 4 (boot (fun _ => 0) (fun _ => 0))).count i = 1)) :=
  ⟨by decide, by decide, by decide,
    C5_window_each_task_once 4 (boot (fun _ => 0) (fun _ => 0)) (by decide) (by decide)
      (by decide)⟩

/-- C5 as stated fails for `N = 257`: from the valid starting index 0, the window of 257
ticks never activates task 256. -/
theorem C5_counterexample :
    1 ≤ 257 ∧ (boot (fun _ => 0) (fun _ => 0)).current_task < 257 ∧
    ¬ ((window 257 (boot (fun _ => 0) (fun _ => 0))).count 256 = 1) := by
  refine ⟨by decide, by decide, ?_⟩
  have h0 : (window 257 (boot (fun _ => 0) (fun _ => 0))).count 256 = 0 := by
    apply List.count_eq_zero_of_not_mem
    intro h
    rcases List.mem_map.mp h with ⟨j, _, hj⟩
    rw [ticks_current_large 257 (by decide) _ (by simp [boot]) (j + 1)] at hj
    have := Nat.mod_lt ((boot (fun _ => 0) (fun _ => 0)).current_task + (j + 1))
      (show 0 < 256 by decide)
    omega
  omega

/-! ## The index stays inside the registry -/

theorem update_next_task_lt (N : Nat) (hN : 0 < N) (s : State) :
    (update_next_task N s).current_task < N := by
  rw [update_next_task_current]
  have h1 : (s.current_task + 1) % 256 % N < N := Nat.mod_lt _ hN
  have h2 : (s.current_task + 1) % 256 % N % 256 ≤ (s.current_task + 1) % 256 % N :=
    Nat.mod_le _ _
  omega

theorem save_psp_value_some (N v : Nat) (s : State) (hs : s.current_task < N) :
    save_psp_value N v s = some { s with psp_of_tasks :=
      fun i => if i = s.current_task then v % W32 else s.psp_of_tasks i } := by
  simp [save_psp_value, hs]

theorem get_psp_value_some (N : Nat) (s : State) (hs : s.current_task < N) :
    get_psp_value N s = some (s.psp_of_tasks s.current_task) := by
  simp [get_psp_value, hs]

theorem run_in_bounds (N : Nat) (hN : 0 < N) (cs : List Call) :
    ∀ s : State, s.current_task < N →
      ∃ s1, run N cs s = some s1 ∧ s1.current_task < N := by
  induction cs with
  | nil => intro s hs; exact ⟨s, rfl, hs⟩
  | cons c cs ih =>
    intro s hs
    cases c with
    | update => exact ih _ (update_next_task_lt N hN s)
    | save v =>
      simp only [run, save_psp_value_some N v s hs]
      exact ih _ hs
    | get =>
      simp only [run, get_psp_value_some N s hs]
      exact ih _ hs

/-- C6: with a registry of `N ≥ 1` slots, `current_task < N` holds at boot, is preserved
by `update_next_task`, `save_psp_value` and `get_psp_value`, and therefore every access
`psp_of_tasks[current_task]` of the two accessors is in bounds, after any sequence of
calls. -/
theorem C6_current_task_in_bounds (N : Nat) (hN : 0 < N) :
    (∀ tops handlers, (boot tops handlers).current_task < N) ∧
    (∀ s : State, s.current_task < N → (update_next_task N s).current_task < N) ∧
    (∀ (s : State) (v : Nat), s.current_task < N →
      ∃ s1, save_psp_value N v s = some s1 ∧ s1.current_task < N) ∧
    (∀ s : State, s.current_task < N → ∃ p, get_psp_value N s = some p) ∧
    (∀ (cs : List Call) tops handlers,
      ∃ s1, run N cs (boot tops handlers) = some s1 ∧ s1.current_task < N) := by
  refine ⟨fun _ _ => hN, fun s _ => update_next_task_lt N hN s, ?_, ?_, ?_⟩
  · intro s v hs
    exact ⟨_, save_psp_value_some N v s hs, hs⟩
  · intro s hs
    exact ⟨_, get_psp_value_some N s hs⟩
  · intro cs tops handlers
    exact run_in_bounds N hN cs (boot tops handlers) hN

theorem C6_current_task_in_bounds_witness :
    0 < 4 ∧
    ((∀ tops handlers, (boot tops handlers).current_task < 4) ∧
    (∀ s : State, s.current_task < 4 → (update_next_task 4 s).current_task < 4) ∧
    (∀ (s : State) (v : Nat), s.current_task < 4 →
      ∃ s1, save_psp_value 4 v s = some s1 ∧ s1.current_task < 4) ∧
    (∀ s : State, s.current_task < 4 → ∃ p, get_psp_value 4 s = some p) ∧
    (∀ (cs : List Call) tops handlers,
      ∃ s1, run 4 cs (boot tops handlers) = some s1 ∧ s1.current_task < 4)) :=
  ⟨by decide, C6_current_task_in_bounds 4 (by decide)⟩

/-- C10: in the shipped configuration (`MAX_TASKS = 4`, start index 0) the active index
after `k` context switches is `k mod 4`; it is 1 after 5 ticks and 0 after 4 ticks. -/
theorem C10_four_task_rotation :
    MAX_TASKS = 4 ∧
    (∀ (tops handlers : Nat → Nat) (k : Nat),
      (ticks MAX_TASKS k (boot tops handlers)).current_task = k % 4) ∧
    (∀ tops handlers : Nat → Nat,
      (ticks MAX_TASKS 5 (boot tops handlers)).current_task = 1 ∧
      (ticks MAX_TASKS 4 (boot tops handlers)).current_task = 0) := by
  refine ⟨rfl, ?_, ?_⟩
  · intro tops handlers k
    have h := ticks_current_small 4 (by decide) (by decide) (boot tops handlers)
      (by simp [boot]) k
    simpa [MAX_TASKS, boot] using h
  · intro tops handlers
    exact ⟨by simp [MAX_TASKS, ticks, update_next_task, boot, W8],
      by simp [MAX_TASKS, ticks, update_next_task, boot, W8]⟩

/-! ## Memory: reads over writes -/

theorem storeByte_apply (m : Mem) (a v x : Nat) :
    storeByte m a v x = if x = a % W32 then v % W8 else m x := rfl

/-- A word store changes only the four bytes of the word. -/
theorem STR_other (m : Mem) (a v x : Nat)
    (h : ∀ y, y < 4 → x ≠ (a + y) % W32) : STR m a v x = m x := by
  have h0 := h 0 (by decide)
  have h1 := h 1 (by decide)
  have h2 := h 2 (by decide)
  have h3 := h 3 (by decide)
  simp only [Nat.add_zero] at h0
  simp [STR, storeByte_apply, h0, h1, h2, h3]

/-- A word load depends only on the four bytes of the word. -/
theorem LDR_congr (m1 m2 : Mem) (a : Nat)
    (h : ∀ y, y < 4 → m1 ((a + y) % W32) = m2 ((a + y) % W32)) : LDR m1 a = LDR m2 a := by
  have h0 := h 0 (by decide)
  have h1 := h 1 (by decide)
  have h2 := h 2 (by decide)
  have h3 := h 3 (by decide)
  simp only [Nat.add_zero] at h0
  simp [LDR, loadByte, h0, h1, h2, h3]

/-- Loading the word just stored gives the stored value, as a 32-bit word. -/
theorem LDR_STR_same (m : Mem) (a v : Nat) : LDR (STR m a v) a = v % W32 := by
  have e1 : (a + 1) % W32 ≠ a % W32 := by unfold W32; omega
  have e2 : (a + 2) % W32 ≠ a % W32 := by unfold W32; omega
  have e3 : (a + 3) % W32 ≠ a % W32 := by unfold W32; omega
  have e4 : (a + 2) % W32 ≠ (a + 1) % W32 := by unfold W32; omega
  have e5 : (a + 3) % W32 ≠ (a + 1) % W32 := by unfold W32; omega
  have e6 : (a + 3) % W32 ≠ (a + 2) % W32 := by unfold W32; omega
  simp [LDR, loadByte, STR, storeByte_apply, e1, e2, e3, e4, e5, e6, e1.symm, e2.symm,
    e3.symm, e4.symm, e5.symm, e6.symm]
  unfold W32 W8
  omega

/-- The loaded word is a 32-bit value. -/
theorem LDR_lt (m : Mem) (a : Nat) : LDR m a < W32 := by
  unfold LDR loadByte W32 W8
  omega

/-! ## The frame of one task -/

theorem sub32_sub32 (p a b : Nat) (hab : a + b < W32) :
    sub32 (sub32 p a) b = sub32 p (a + b) := by
  unfold sub32 W32 at *
  omega

/-- Byte `y` of the word `k` words below `p` is byte `4 * k - 1 - y` below `p`. -/
theorem word_byte_eq (p k y : Nat) (hk : 1 ≤ k) (hk2 : 4 * k < W32) (hy : y < 4) :
    (sub32 p (4 * k) + y) % W32 = frame_byte p (4 * k - 1 - y) := by
  unfold sub32 frame_byte W32 at *
  omega

theorem frame_byte_sub32 (p d : Nat) (hd : d + 4 < W32) :
    frame_byte (sub32 p 4) d = frame_byte p (d + 4) := by
  unfold sub32 frame_byte W32 at *
  omega

theorem push_all_pPSP (vs : List Nat) : ∀ (f : Frame) (v : Nat), 4 * (vs.length + 1) < W32 →
    (push_all f (v :: vs)).pPSP = sub32 f.pPSP (4 * (vs.length + 1)) := by
  induction vs with
  | nil => intro f v _; rfl
  | cons w vs ih =>
    intro f v h
    simp only [List.length_cons] at h
    rw [push_all, ih (push f v) w (by omega)]
    simp only [push, List.length_cons]
    rw [sub32_sub32 _ _ _ (by omega)]
    congr 1
    omega

theorem push_all_written_addr (vs : List Nat) : ∀ f : Frame, 4 * vs.length < W32 →
    (push_all f vs).written.map Prod.fst
      = f.written.map Prod.fst
        ++ (List.range vs.length).map (fun k => sub32 f.pPSP (4 * (k + 1))) := by
  induction vs with
  | nil => intro f _; simp [push_all]
  | cons v vs ih =>
    intro f h
    simp only [List.length_cons] at h
    rw [push_all, ih (push f v) (by omega)]
    simp only [push, List.length_cons, List.append_assoc, List.singleton_append,
      List.map_append, List.map_cons, List.map_nil]
    rw [List.range_succ_eq_map, List.map_cons, List.map_map]
    have h1 : (List.range vs.length).map (fun k => sub32 (sub32 f.pPSP 4) (4 * (k + 1)))
        = (List.range vs.length).map ((fun k => sub32 f.pPSP (4 * (k + 1))) ∘ Nat.succ) := by
      apply List.map_congr_left
      intro k hk
      have hk2 := List.mem_range.mp hk
      simp only [Function.comp]
      rw [sub32_sub32 _ _ _ (by omega)]
      have h2 : 4 + 4 * (k + 1) = 4 * (k.succ + 1) := by omega
      rw [h2]
    rw [h1]

theorem push_all_written_val (vs : List Nat) : ∀ f : Frame,
    (push_all f vs).written.map Prod.snd = f.written.map Prod.snd ++ vs := by
  induction vs with
  | nil => intro f; simp [push_all]
  | cons v vs ih =>
    intro f
    rw [push_all, ih (push f v)]
    simp [push]

/-- Pushing a list of words changes only the bytes of those words. -/
theorem push_all_other (vs : List Nat) : ∀ (f : Frame) (x : Nat), 4 * vs.length < W32 →
    (∀ d, d < 4 * vs.length → x ≠ frame_byte f.pPSP d) →
    (push_all f vs).mem x = f.mem x := by
  induction vs with
  | nil => intro f x _ _; rfl
  | cons v vs ih =>
    intro f x h hx
    simp only [List.length_cons] at h hx
    rw [push_all, ih (push f v) x (by omega)]
    · simp only [push]
      apply STR_other
      intro y hy
      have := hx (3 - y) (by omega)
      rw [word_byte_eq f.pPSP 1 y (by omega) (by unfold W32; omega) hy] at *
      simpa using this
    · intro d hd
      simp only [push]
      rw [frame_byte_sub32 _ _ (by omega)]
      exact hx (d + 4) (by omega)

/-- After pushing a list of words, the `k`-th of them is found `k + 1` words below the
starting pointer. -/
theorem push_all_content (vs : List Nat) : ∀ (f : Frame) (k : Nat), 4 * vs.length < W32 →
    k < vs.length →
    LDR (push_all f vs).mem (sub32 f.pPSP (4 * (k + 1))) = vs.getD k 0 % W32 := by
  induction vs with
  | nil => intro f k _ hk; simp at hk
  | cons v vs ih =>
    intro f k h hk
    simp only [List.length_cons] at h hk
    rw [push_all]
    cases k with
    | zero =>
      have hc : LDR (push_all (push f v) vs).mem (sub32 f.pPSP (4 * (0 + 1)))
          = LDR (push f v).mem (sub32 f.pPSP (4 * (0 + 1))) := by
        apply LDR_congr
        intro y hy
        apply push_all_other vs (push f v) _ (by omega)
        intro d hd
        simp only [push]
        rw [frame_byte_sub32 _ _ (by omega),
          word_byte_eq f.pPSP (0 + 1) y (by omega) (by unfold W32; omega) hy]
        unfold frame_byte W32 at *
        omega
      rw [hc]
      simp only [push, List.getD_cons_zero]
      exact LDR_STR_same _ _ _
    | succ k =>
      have := ih (push f v) k (by omega) (by omega)
      simp only [push] at this
      rw [sub32_sub32 _ _ _ (by omega)] at this
      simp only [List.getD_cons_succ]
      rw [← this]
      have h2 : 4 * (k + 1 + 1) = 4 + 4 * (k + 1) := by omega
      rw [h2]
      rfl

theorem init_task_frame_eq (top handler : Nat) (m : Mem) :
    init_task_frame top handler m
      = push_all { mem := m, pPSP := top, written := [] } (frame_values handler) := rfl

theorem frame_values_length (handler : Nat) : (frame_values handler).length = 16 := rfl

theorem init_task_frame_pPSP (top handler : Nat) (m : Mem) :
    (init_task_frame top handler m).pPSP = sub32 top 64 := by
  rw [init_task_frame_eq]
  exact push_all_pPSP _ _ _ (by simp [W32])

theorem init_task_frame_written_addr (top handler : Nat) (m : Mem) :
    (init_task_frame top handler m).written.map Prod.fst
      = (List.range 16).map (fun k => sub32 top (4 * (k + 1))) := by
  rw [init_task_frame_eq, push_all_written_addr _ _ (by simp [frame_values_length, W32])]
  rfl

theorem init_task_frame_written_val (top handler : Nat) (m : Mem) :
    (init_task_frame top handler m).written.map Prod.snd = frame_values handler := by
  rw [init_task_frame_eq, push_all_written_val]
  rfl

theorem init_task_frame_other (top handler : Nat) (m : Mem) (x : Nat)
    (hx : ∀ d, d < 64 → x ≠ frame_byte top d) :
    (init_task_frame top handler m).mem x = m x := by
  rw [init_task_frame_eq]
  exact push_all_other _ _ x (by simp [frame_values_length, W32]) hx

theorem init_task_frame_content (top handler : Nat) (m : Mem) (k : Nat) (hk : k < 16) :
    LDR (init_task_frame top handler m).mem (sub32 top (4 * (k + 1)))
      = (frame_values handler).getD k 0 % W32 := by
  rw [init_task_frame_eq]
  exact push_all_content _ _ k (by simp [frame_values_length, W32]) hk

/-! ## The loop over the tasks -/

theorem init_tasks_loop_handlers (b0 : Built) (n : Nat) :
    (init_tasks_loop b0 n).g.task_handlers = b0.g.task_handlers ∧
    (init_tasks_loop b0 n).g.current_task = b0.g.current_task := by
  induction n with
  | zero => exact ⟨rfl, rfl⟩
  | succ n ih => simpa [init_tasks_loop, init_task] using ih

theorem init_tasks_loop_psp (b0 : Built) (n i : Nat) :
    (init_tasks_loop b0 n).g.psp_of_tasks i
      = if i < n then sub32 (b0.g.psp_of_tasks i) 64 else b0.g.psp_of_tasks i := by
  induction n with
  | zero => simp [init_tasks_loop]
  | succ n ih =>
    simp only [init_tasks_loop, init_task, init_task_frame_pPSP]
    by_cases h : i = n
    · subst h
      have := ih
      simp at this
      simp [this]
    · rw [if_neg h, ih]
      by_cases h2 : i < n
      · rw [if_pos h2, if_pos (by omega)]
      · rw [if_neg h2, if_neg (by omega)]

/-- The record of stores has one entry per finished round, and the entry of round `i`
is the record of the frame built at the stack top of task `i`. -/
theorem init_tasks_loop_trace (b0 : Built) (n : Nat) :
    (init_tasks_loop b0 n).trace
      = b0.trace ++ (List.range n).map (fun i =>
          (init_task_frame (b0.g.psp_of_tasks i) (b0.g.task_handlers i)
            (init_tasks_loop b0 i).mem).written) := by
  induction n with
  | zero => simp [init_tasks_loop]
  | succ n ih =>
    simp only [init_tasks_loop, init_task, ih, init_tasks_loop_psp, (init_tasks_loop_handlers b0 n).1,
      Nat.lt_irrefl, if_false, List.range_succ, List.map_append, List.map_cons, List.map_nil,
      List.append_assoc]

theorem init_tasks_stack_trace_get (N : Nat) (s : State) (m : Mem) (i : Nat) (hi : i < N) :
    (init_tasks_stack N s m).trace[i]?
      = some (init_task_frame (s.psp_of_tasks i) (s.task_handlers i)
          (init_tasks_loop { g := s, mem := m, trace := [] } i).mem).written := by
  unfold init_tasks_stack
  rw [init_tasks_loop_trace]
  simp [hi]

/-- The loop changes no byte outside the frames of the tasks already handled. -/
theorem init_tasks_loop_other (b0 : Built) (n x : Nat)
    (hx : ∀ i, i < n → ∀ d, d < 64 → x ≠ frame_byte (b0.g.psp_of_tasks i) d) :
    (init_tasks_loop b0 n).mem x = b0.mem x := by
  induction n with
  | zero => rfl
  | succ n ih =>
    simp only [init_tasks_loop, init_task]
    rw [init_task_frame_other, ih (fun i hi => hx i (by omega))]
    intro d hd
    rw [init_tasks_loop_psp, if_neg (Nat.lt_irrefl n)]
    exact hx n (by omega) d hd

/-- With disjoint frames, after `n` rounds the frames of tasks `0 .. n-1` hold the
fabricated values. -/
theorem init_tasks_loop_content (N : Nat) (b0 : Built)
    (hd : frames_disjoint N b0.g.psp_of_tasks) (n : Nat) (hn : n ≤ N)
    (i : Nat) (hi : i < n) (k : Nat) (hk : k < 16) :
    LDR (init_tasks_loop b0 n).mem (sub32 (b0.g.psp_of_tasks i) (4 * (k + 1)))
      = (frame_values (b0.g.task_handlers i)).getD k 0 % W32 := by
  induction n with
  | zero => omega
  | succ n ih =>
    simp only [init_tasks_loop, init_task]
    rw [init_tasks_loop_psp, if_neg (Nat.lt_irrefl n), (init_tasks_loop_handlers b0 n).1]
    by_cases h : i = n
    · subst h
      exact init_task_frame_content _ _ _ k hk
    · rw [← ih (by omega) (by omega)]
      apply LDR_congr
      intro y hy
      apply init_task_frame_other
      intro d hd2
      rw [word_byte_eq _ (k + 1) y (by omega) (by unfold W32; omega) hy]
      exact hd i n (by omega) (by omega) h _ _ (by omega) hd2

/-! ## Claims about the fabricated frame -/

theorem sample_frames_disjoint : frames_disjoint 4 sample.psp_of_tasks := by
  intro i j hi hj hij d e hd he
  simp only [sample, boot, frame_byte, W32]
  omega

/-- C2: when the frames do not overlap, after `init_tasks_stack` the words below the
stack top of task `i` are, top-down: `DUMMY_XPSR = 0x01000000` (exactly one bit set) at
`top - 4`, the entry point `task_handlers[i]` at `top - 8`, `0xFFFFFFFD` at `top - 12`,
and zero in the thirteen words at `top - 16` down to `top - 64`. -/
theorem C2_frame_contents (N : Nat) (s : State) (m : Mem)
    (hd : frames_disjoint N s.psp_of_tasks) (i : Nat) (hi : i < N)
    (hh : s.task_handlers i < W32) :
    LDR (init_tasks_stack N s m).mem (sub32 (s.psp_of_tasks i) 4) = DUMMY_XPSR ∧
    DUMMY_XPSR = 0x01000000 ∧ popcount32 DUMMY_XPSR = 1 ∧
    LDR (init_tasks_stack N s m).mem (sub32 (s.psp_of_tasks i) 8) = s.task_handlers i ∧
    LDR (init_tasks_stack N s m).mem (sub32 (s.psp_of_tasks i) 12) = 0xFFFFFFFD ∧
    (∀ k, 4 ≤ k → k ≤ 16 →
      LDR (init_tasks_stack N s m).mem (sub32 (s.psp_of_tasks i) (4 * k)) = 0) := by
  have key := fun k hk =>
    init_tasks_loop_content N { g := s, mem := m, trace := [] } hd N (Nat.le_refl N) i hi k hk
  refine ⟨?_, rfl, by decide, ?_, ?_, ?_⟩
  · have := key 0 (by decide)
    simpa [frame_values, DUMMY_XPSR, W32] using this
  · have := key 1 (by decide)
    simp only [frame_values] at this
    rw [show (4 : Nat) * (1 + 1) = 8 from rfl] at this
    rw [init_tasks_stack, this]
    simpa using Nat.mod_eq_of_lt hh
  · have := key 2 (by decide)
    simpa [frame_values, EXC_RETURN, W32] using this
  · intro k h4 h16
    have := key (k - 1) (by omega)
    rw [show k - 1 + 1 = k by omega] at this
    rw [init_tasks_stack, this]
    obtain ⟨j, rfl⟩ : ∃ j, k = j + 4 := ⟨k - 4, by omega⟩
    have hj : j < 13 := by omega
    simp only [frame_values, show j + 4 - 1 = j + 3 by omega]
    interval_cases j <;> rfl

theorem C2_frame_contents_witness :
    frames_disjoint 4 sample.psp_of_tasks ∧ 2 < 4 ∧ sample.task_handlers 2 < W32 ∧
    (LDR (init_tasks_stack 4 sample sample_mem).mem (sub32 (sample.psp_of_tasks 2) 4)
        = DUMMY_XPSR ∧
    DUMMY_XPSR = 0x01000000 ∧ popcount32 DUMMY_XPSR = 1 ∧
    LDR (init_tasks_stack 4 sample sample_mem).mem (sub32 (sample.psp_of_tasks 2) 8)
        = sample.task_handlers 2 ∧
    LDR (init_tasks_stack 4 sample sample_mem).mem (sub32 (sample.psp_of_tasks 2) 12)
        = 0xFFFFFFFD ∧
    (∀ k, 4 ≤ k → k ≤ 16 →
      LDR (init_tasks_stack 4 sample sample_mem).mem (sub32 (sample.psp_of_tasks 2) (4 * k))
        = 0)) :=
  ⟨sample_frames_disjoint, by decide, by decide,
    C2_frame_contents 4 sample sample_mem sample_frames_disjoint 2 (by decide) (by decide)⟩

/-- C7, as amended: for every task the builder stores 16 consecutive words, top-down
from the task's stack top: the status word, the entry point, the exception-return code
and thirteen zero words. -/
theorem C7_frame_is_sixteen_words (N : Nat) (s : State) (m : Mem) (i : Nat) (hi : i < N) :
    ∃ ws, (init_tasks_stack N s m).trace[i]? = some ws ∧ ws.length = 16 ∧
      ws.map Prod.fst = (List.range 16).map (fun k => sub32 (s.psp_of_tasks i) (4 * (k + 1))) ∧
      ws.map Prod.snd = [DUMMY_XPSR, s.task_handlers i, EXC_RETURN] ++ List.replicate 13 0 := by
  refine ⟨_, init_tasks_stack_trace_get N s m i hi, ?_, init_task_frame_written_addr _ _ _,
    init_task_frame_written_val _ _ _⟩
  have := congrArg List.length (init_task_frame_written_addr (s.psp_of_tasks i)
    (s.task_handlers i) (init_tasks_loop { g := s, mem := m, trace := [] } i).mem)
  simpa using this

theorem C7_frame_is_sixteen_words_witness :
    0 < 4 ∧
    ∃ ws, (init_tasks_stack 4 sample sample_mem).trace[0]? = some ws ∧ ws.length = 16 ∧
      ws.map Prod.fst
        = (List.range 16).map (fun k => sub32 (sample.psp_of_tasks 0) (4 * (k + 1))) ∧
      ws.map Prod.snd
        = [DUMMY_XPSR, sample.task_handlers 0, EXC_RETURN] ++ List.replicate 13 0 :=
  ⟨by decide, C7_frame_is_sixteen_words 4 sample sample_mem 0 (by decide)⟩

/-- C7 as stated fails: in the example configuration the frame of task 0 is a list of
stores that does not have 17 entries, and the recorded pointer is 64 bytes, not 68,
below the stack top. -/
theorem C7_counterexample :
    ¬ (((init_tasks_stack 4 sample sample_mem).trace.getD 0 []).length = 17) ∧
    (init_tasks_stack 4 sample sample_mem).g.psp_of_tasks 0 = 0x20001000 - 64 := by
  constructor
  · have h := init_tasks_stack_trace_get 4 sample sample_mem 0 (by decide)
    have hl := congrArg List.length (init_task_frame_written_addr (sample.psp_of_tasks 0)
      (sample.task_handlers 0)
      (init_tasks_loop { g := sample, mem := sample_mem, trace := [] } 0).mem)
    simp only [List.length_map, List.length_range] at hl
    rw [List.getD_eq_getElem?_getD, h, Option.getD_some, hl]
    decide
  · rw [init_tasks_stack, init_tasks_loop_psp]
    simp [sample, boot, sub32, W32]

theorem init_tasks_stack_psp (N : Nat) (s : State) (m : Mem) (i : Nat) (hi : i < N) :
    (init_tasks_stack N s m).g.psp_of_tasks i = sub32 (s.psp_of_tasks i) 64 := by
  rw [init_tasks_stack, init_tasks_loop_psp, if_pos hi]

/-- C8: after `init_tasks_stack` the pointer recorded for task `i` is the address of
the last word stored for that task, 64 bytes below the stack top; the words stored for
the task are exactly the sixteen words from that pointer upwards; and when the top has
64 bytes below it, every stored word lies in `[psp_of_tasks[i], top)`, none lies below
the recorded pointer, and every byte of that range belongs to a stored word. -/
theorem C8_psp_points_at_frame_base (N : Nat) (s : State) (m : Mem) (i : Nat) (hi : i < N) :
    ∃ ws, (init_tasks_stack N s m).trace[i]? = some ws ∧
      (ws.map Prod.fst).getLast? = some ((init_tasks_stack N s m).g.psp_of_tasks i) ∧
      (init_tasks_stack N s m).g.psp_of_tasks i = sub32 (s.psp_of_tasks i) 64 ∧
      (∀ a, a ∈ ws.map Prod.fst →
        ∃ k, k < 16 ∧ a = add32 ((init_tasks_stack N s m).g.psp_of_tasks i) (4 * k)) ∧
      (∀ k, k < 16 →
        add32 ((init_tasks_stack N s m).g.psp_of_tasks i) (4 * k) ∈ ws.map Prod.fst) ∧
      (64 ≤ s.psp_of_tasks i → s.psp_of_tasks i < W32 →
        (init_tasks_stack N s m).g.psp_of_tasks i + 64 = s.psp_of_tasks i ∧
        (∀ a, a ∈ ws.map Prod.fst →
          (init_tasks_stack N s m).g.psp_of_tasks i ≤ a ∧ a + 4 ≤ s.psp_of_tasks i) ∧
        (∀ x, (init_tasks_stack N s m).g.psp_of_tasks i ≤ x → x < s.psp_of_tasks i →
          ∃ a, a ∈ ws.map Prod.fst ∧ a ≤ x ∧ x < a + 4)) := by
  refine ⟨_, init_tasks_stack_trace_get N s m i hi, ?_⟩
  rw [init_task_frame_written_addr, init_tasks_stack_psp N s m i hi]
  refine ⟨?_, rfl, ?_, ?_, ?_⟩
  · rw [List.range_succ, List.map_append, List.map_cons, List.map_nil,
      List.getLast?_concat]
  · intro a ha
    rcases List.mem_map.mp ha with ⟨k, hk, rfl⟩
    have hk2 := List.mem_range.mp hk
    refine ⟨15 - k, by omega, ?_⟩
    unfold sub32 add32 W32
    omega
  · intro k hk
    apply List.mem_map.mpr
    refine ⟨15 - k, List.mem_range.mpr (by omega), ?_⟩
    unfold sub32 add32 W32
    omega
  · intro h64 hW
    refine ⟨?_, ?_, ?_⟩
    · unfold sub32 W32 at *
      omega
    · intro a ha
      rcases List.mem_map.mp ha with ⟨k, hk, rfl⟩
      have hk2 := List.mem_range.mp hk
      unfold sub32 W32 at *
      omega
    · intro x hx1 hx2
      refine ⟨sub32 (s.psp_of_tasks i) (4 * ((s.psp_of_tasks i - 1 - x) / 4 + 1)), ?_, ?_⟩
      · apply List.mem_map.mpr
        refine ⟨(s.psp_of_tasks i - 1 - x) / 4, List.mem_range.mpr ?_, rfl⟩
        unfold sub32 W32 at *
        omega
      · unfold sub32 W32 at *
        omega

theorem C8_psp_points_at_frame_base_witness :
    1 < 4 ∧ 64 ≤ sample.psp_of_tasks 1 ∧ sample.psp_of_tasks 1 < W32 ∧
    ∃ ws, (init_tasks_stack 4 sample sample_mem).trace[1]? = some ws ∧
      (ws.map Prod.fst).getLast?
        = some ((init_tasks_stack 4 sample sample_mem).g.psp_of_tasks 1) ∧
      (init_tasks_stack 4 sample sample_mem).g.psp_of_tasks 1 + 64 = sample.psp_of_tasks 1 ∧
      (∀ a, a ∈ ws.map Prod.fst →
        (init_tasks_stack 4 sample sample_mem).g.psp_of_tasks 1 ≤ a ∧
          a + 4 ≤ sample.psp_of_tasks 1) ∧
      (∀ x, (init_tasks_stack 4 sample sample_mem).g.psp_of_tasks 1 ≤ x →
        x < sample.psp_of_tasks 1 →
        ∃ a, a ∈ ws.map Prod.fst ∧ a ≤ x ∧ x < a + 4) := by
  obtain ⟨ws, h1, h2, _, _, _, h6⟩ :=
    C8_psp_points_at_frame_base 4 sample sample_mem 1 (by decide)
  obtain ⟨h7, h8, h9⟩ := h6 (by decide) (by decide)
  exact ⟨by decide, by decide, by decide, ws, h1, h2, h7, h8, h9⟩

/-! ## Restoring a frame -/

theorem LDR_addr_mod (m : Mem) (a b : Nat) (h : a % W32 = b % W32) : LDR m a = LDR m b := by
  have h0 : (a + 0) % W32 = (b + 0) % W32 := by simpa using h
  have h1 : (a + 1) % W32 = (b + 1) % W32 := by unfold W32 at *; omega
  have h2 : (a + 2) % W32 = (b + 2) % W32 := by unfold W32 at *; omega
  have h3 : (a + 3) % W32 = (b + 3) % W32 := by unfold W32 at *; omega
  simp only [Nat.add_zero] at h0
  simp [LDR, loadByte, h0, h1, h2, h3]

/-- Word `j` of a built frame, counted upwards from the recorded pointer. -/
theorem init_tasks_stack_word (N : Nat) (s : State) (m : Mem)
    (hd : frames_disjoint N s.psp_of_tasks) (i : Nat) (hi : i < N) (a j : Nat) (hj : j < 16)
    (ha : a % W32 = (sub32 (s.psp_of_tasks i) 64 + 4 * j) % W32) :
    LDR (init_tasks_stack N s m).mem a
      = (frame_values (s.task_handlers i)).getD (15 - j) 0 % W32 := by
  have key := init_tasks_loop_content N { g := s, mem := m, trace := [] } hd N (Nat.le_refl N)
    i hi (15 - j) (by omega)
  dsimp only at key
  rw [init_tasks_stack, ← key]
  apply LDR_addr_mod
  rw [ha]
  unfold sub32 W32
  omega

theorem frame_values_getD (handler : Nat) (hh : handler < W32) :
    (frame_values handler).getD 0 0 % W32 = 0x01000000 ∧
    (frame_values handler).getD 1 0 % W32 = handler ∧
    (frame_values handler).getD 2 0 % W32 = 0xFFFFFFFD ∧
    (∀ k, 3 ≤ k → (frame_values handler).getD k 0 % W32 = 0) := by
  refine ⟨by simp [frame_values, DUMMY_XPSR, W32], ?_, by simp [frame_values, EXC_RETURN, W32],
    ?_⟩
  · simpa [frame_values] using Nat.mod_eq_of_lt hh
  · intro k hk
    obtain ⟨j, rfl⟩ : ∃ j, k = j + 3 := ⟨k - 3, by omega⟩
    by_cases hj : j < 13
    · simp only [frame_values]
      interval_cases j <;> rfl
    · rw [List.getD_eq_default _ _ (by simp [frame_values_length]; omega)]
      rfl

/-- C3: when the frames do not overlap, resuming a task that has never run (the
handler's restore sequence at the pointer `get_psp_value` returns for task `i`, then the
exception return) continues at `PC = task_handlers[i]` with status word `0x01000000`
and `R0`-`R12` all zero. -/
theorem C3_first_resume_enters_task (N : Nat) (s : State) (m : Mem)
    (hd : frames_disjoint N s.psp_of_tasks) (i : Nat) (hi : i < N)
    (hh : s.task_handlers i < W32) (c : Cpu) :
    ∃ p, get_psp_value N { (init_tasks_stack N s m).g with current_task := i } = some p ∧
      (resume c p (init_tasks_stack N s m).mem).pc = s.task_handlers i ∧
      (resume c p (init_tasks_stack N s m).mem).xpsr = 0x01000000 ∧
      (resume c p (init_tasks_stack N s m).mem).r0 = 0 ∧
      (resume c p (init_tasks_stack N s m).mem).r1 = 0 ∧
      (resume c p (init_tasks_stack N s m).mem).r2 = 0 ∧
      (resume c p (init_tasks_stack N s m).mem).r3 = 0 ∧
      (resume c p (init_tasks_stack N s m).mem).r4 = 0 ∧
      (resume c p (init_tasks_stack N s m).mem).r5 = 0 ∧
      (resume c p (init_tasks_stack N s m).mem).r6 = 0 ∧
      (resume c p (init_tasks_stack N s m).mem).r7 = 0 ∧
      (resume c p (init_tasks_stack N s m).mem).r8 = 0 ∧
      (resume c p (init_tasks_stack N s m).mem).r9 = 0 ∧
      (resume c p (init_tasks_stack N s m).mem).r10 = 0 ∧
      (resume c p (init_tasks_stack N s m).mem).r11 = 0 ∧
      (resume c p (init_tasks_stack N s m).mem).r12 = 0 := by
  refine ⟨sub32 (s.psp_of_tasks i) 64, ?_, ?_⟩
  · rw [get_psp_value_some N _ hi]
    exact congrArg some (init_tasks_stack_psp N s m i hi)
  · obtain ⟨v0, v1, _, vz⟩ := frame_values_getD (s.task_handlers i) hh
    have word := fun a j hj ha => init_tasks_stack_word N s m hd i hi a j hj ha
    simp only [resume, dispatch, restore_context, exception_return]
    refine ⟨?_, ?_, ?_, ?_, ?_, ?_, ?_, ?_, ?_, ?_, ?_, ?_, ?_, ?_, ?_⟩
    · rw [word _ 14 (by decide) (by simp only [add32, sub32, W32]; omega)]; exact v1
    · rw [word _ 15 (by decide) (by simp only [add32, sub32, W32]; omega)]; exact v0
    · rw [word _ 8 (by decide) (by simp only [add32, sub32, W32]; omega)]; exact vz _ (by decide)
    · rw [word _ 9 (by decide) (by simp only [add32, sub32, W32]; omega)]; exact vz _ (by decide)
    · rw [word _ 10 (by decide) (by simp only [add32, sub32, W32]; omega)]; exact vz _ (by decide)
    · rw [word _ 11 (by decide) (by simp only [add32, sub32, W32]; omega)]; exact vz _ (by decide)
    · rw [word _ 0 (by decide) rfl]; exact vz _ (by decide)
    · rw [word _ 1 (by decide) rfl]; exact vz _ (by decide)
    · rw [word _ 2 (by decide) rfl]; exact vz _ (by decide)
    · rw [word _ 3 (by decide) rfl]; exact vz _ (by decide)
    · rw [word _ 4 (by decide) rfl]; exact vz _ (by decide)
    · rw [word _ 5 (by decide) rfl]; exact vz _ (by decide)
    · rw [word _ 6 (by decide) rfl]; exact vz _ (by decide)
    · rw [word _ 7 (by decide) rfl]; exact vz _ (by decide)
    · rw [word _ 12 (by decide) (by simp only [add32, sub32, W32]; omega)]; exact vz _ (by decide)

theorem C3_first_resume_enters_task_witness :
    frames_disjoint 4 sample.psp_of_tasks ∧ 2 < 4 ∧ sample.task_handlers 2 < W32 ∧
    ∃ p, get_psp_value 4 { (init_tasks_stack 4 sample sample_mem).g with current_task := 2 }
        = some p ∧
      (resume sample_cpu p (init_tasks_stack 4 sample sample_mem).mem).pc
        = sample.task_handlers 2 ∧
      (resume sample_cpu p (init_tasks_stack 4 sample sample_mem).mem).xpsr = 0x01000000 ∧
      (resume sample_cpu p (init_tasks_stack 4 sample sample_mem).mem).r0 = 0 ∧
      (resume sample_cpu p (init_tasks_stack 4 sample sample_mem).mem).r1 = 0 ∧
      (resume sample_cpu p (init_tasks_stack 4 sample sample_mem).mem).r2 = 0 ∧
      (resume sample_cpu p (init_tasks_stack 4 sample sample_mem).mem).r3 = 0 ∧
      (resume sample_cpu p (init_tasks_stack 4 sample sample_mem).mem).r4 = 0 ∧
      (resume sample_cpu p (init_tasks_stack 4 sample sample_mem).mem).r5 = 0 ∧
      (resume sample_cpu p (init_tasks_stack 4 sample sample_mem).mem).r6 = 0 ∧
      (resume sample_cpu p (init_tasks_stack 4 sample sample_mem).mem).r7 = 0 ∧
      (resume sample_cpu p (init_tasks_stack 4 sample sample_mem).mem).r8 = 0 ∧
      (resume sample_cpu p (init_tasks_stack 4 sample sample_mem).mem).r9 = 0 ∧
      (resume sample_cpu p (init_tasks_stack 4 sample sample_mem).mem).r10 = 0 ∧
      (resume sample_cpu p (init_tasks_stack 4 sample sample_mem).mem).r11 = 0 ∧
      (resume sample_cpu p (init_tasks_stack 4 sample sample_mem).mem).r12 = 0 :=
  ⟨sample_frames_disjoint, by decide, by decide,
    C3_first_resume_enters_task 4 sample sample_mem sample_frames_disjoint 2 (by decide)
      (by decide) sample_cpu⟩

/-! ## Saving and restoring a context -/

/-- A word store does not change a word at least four bytes away. -/
theorem LDR_STR_offset (m : Mem) (p a b v : Nat) (ha : a < 64) (hb : b < 64)
    (hab : a + 4 ≤ b ∨ b + 4 ≤ a) : LDR (STR m (p + a) v) (p + b) = LDR m (p + b) := by
  apply LDR_congr
  intro y hy
  apply STR_other
  intro z hz
  unfold W32
  omega

/-- The memory after the save sequence holds `R4`-`R11` at offsets 0 to 28 from the new
pointer. -/
theorem save_context_words (c : Cpu) (m : Mem) :
    (save_context c m).1.r0 = sub32 c.psp 32 ∧
    LDR (save_context c m).2 (sub32 c.psp 32 + 0) = c.r4 % W32 ∧
    LDR (save_context c m).2 (sub32 c.psp 32 + 4) = c.r5 % W32 ∧
    LDR (save_context c m).2 (sub32 c.psp 32 + 8) = c.r6 % W32 ∧
    LDR (save_context c m).2 (sub32 c.psp 32 + 12) = c.r7 % W32 ∧
    LDR (save_context c m).2 (sub32 c.psp 32 + 16) = c.r8 % W32 ∧
    LDR (save_context c m).2 (sub32 c.psp 32 + 20) = c.r9 % W32 ∧
    LDR (save_context c m).2 (sub32 c.psp 32 + 24) = c.r10 % W32 ∧
    LDR (save_context c m).2 (sub32 c.psp 32 + 28) = c.r11 % W32 := by
  simp only [save_context]
  refine ⟨trivial, ?_, ?_, ?_, ?_, ?_, ?_, ?_, ?_⟩ <;>
    simp (disch := omega) only [LDR_STR_offset, LDR_STR_same]

/-- C4: the save sequence followed later by the restore sequence at the recorded
pointer, with the 32 saved bytes untouched in between, gives back `R4`-`R11` and the
process stack pointer. -/
theorem C4_save_restore_round_trip (c : Cpu) (m : Mem) (hc : c.valid) (c2 : Cpu) (m2 : Mem)
    (hm : ∀ d, d < 32 →
      m2 (((save_context c m).1.r0 + d) % W32)
        = (save_context c m).2 (((save_context c m).1.r0 + d) % W32)) :
    (save_context c m).1.r0 = sub32 c.psp 32 ∧
    (restore_context { c2 with r0 := (save_context c m).1.r0 } m2).r4 = c.r4 ∧
    (restore_context { c2 with r0 := (save_context c m).1.r0 } m2).r5 = c.r5 ∧
    (restore_context { c2 with r0 := (save_context c m).1.r0 } m2).r6 = c.r6 ∧
    (restore_context { c2 with r0 := (save_context c m).1.r0 } m2).r7 = c.r7 ∧
    (restore_context { c2 with r0 := (save_context c m).1.r0 } m2).r8 = c.r8 ∧
    (restore_context { c2 with r0 := (save_context c m).1.r0 } m2).r9 = c.r9 ∧
    (restore_context { c2 with r0 := (save_context c m).1.r0 } m2).r10 = c.r10 ∧
    (restore_context { c2 with r0 := (save_context c m).1.r0 } m2).r11 = c.r11 ∧
    (restore_context { c2 with r0 := (save_context c m).1.r0 } m2).psp = c.psp := by
  obtain ⟨h0, h4, h5, h6, h7, h8, h9, h10, h11⟩ := save_context_words c m
  obtain ⟨_, _, _, _, v4, v5, v6, v7, v8, v9, v10, v11, _, _, _, _, vp, _, _⟩ := hc
  rw [h0] at hm ⊢
  have back : ∀ o, o + 4 ≤ 32 →
      LDR m2 (sub32 c.psp 32 + o) = LDR (save_context c m).2 (sub32 c.psp 32 + o) := by
    intro o ho
    apply LDR_congr
    intro y hy
    rw [Nat.add_assoc]
    exact hm (o + y) (by omega)
  simp only [restore_context]
  refine ⟨trivial, ?_, ?_, ?_, ?_, ?_, ?_, ?_, ?_, ?_⟩
  · rw [back 0 (by decide), h4]; exact Nat.mod_eq_of_lt v4
  · rw [back 4 (by decide), h5]; exact Nat.mod_eq_of_lt v5
  · rw [back 8 (by decide), h6]; exact Nat.mod_eq_of_lt v6
  · rw [back 12 (by decide), h7]; exact Nat.mod_eq_of_lt v7
  · rw [back 16 (by decide), h8]; exact Nat.mod_eq_of_lt v8
  · rw [back 20 (by decide), h9]; exact Nat.mod_eq_of_lt v9
  · rw [back 24 (by decide), h10]; exact Nat.mod_eq_of_lt v10
  · rw [back 28 (by decide), h11]; exact Nat.mod_eq_of_lt v11
  · unfold add32 sub32 W32 at *
    omega

theorem sample_cpu_valid : sample_cpu.valid := by
  simp [Cpu.valid, sample_cpu, W32]

theorem C4_save_restore_round_trip_witness :
    sample_cpu.valid ∧
    (∀ d, d < 32 →
      storeByte (save_context sample_cpu sample_mem).2 0x20000F00 0x5A
          (((save_context sample_cpu sample_mem).1.r0 + d) % W32)
        = (save_context sample_cpu sample_mem).2
          (((save_context sample_cpu sample_mem).1.r0 + d) % W32)) ∧
    (restore_context { other_cpu with r0 := (save_context sample_cpu sample_mem).1.r0 }
        (storeByte (save_context sample_cpu sample_mem).2 0x20000F00 0x5A)).r4
      = 0x44444444 ∧
    (restore_context { other_cpu with r0 := (save_context sample_cpu sample_mem).1.r0 }
        (storeByte (save_context sample_cpu sample_mem).2 0x20000F00 0x5A)).r11
      = 0xBBBBBBBB ∧
    (restore_context { other_cpu with r0 := (save_context sample_cpu sample_mem).1.r0 }
        (storeByte (save_context sample_cpu sample_mem).2 0x20000F00 0x5A)).psp
      = 0x20000F00 := by
  have hm : ∀ d, d < 32 →
      storeByte (save_context sample_cpu sample_mem).2 0x20000F00 0x5A
          (((save_context sample_cpu sample_mem).1.r0 + d) % W32)
        = (save_context sample_cpu sample_mem).2
          (((save_context sample_cpu sample_mem).1.r0 + d) % W32) := by
    intro d hd
    rw [storeByte_apply, if_neg]
    rw [(save_context_words sample_cpu sample_mem).1]
    simp only [sample_cpu, sub32, W32]
    omega
  have h := C4_save_restore_round_trip sample_cpu sample_mem sample_cpu_valid
    { other_cpu with r0 := (save_context sample_cpu sample_mem).1.r0 }
    (storeByte (save_context sample_cpu sample_mem).2 0x20000F00 0x5A) hm
  exact ⟨sample_cpu_valid, hm, h.2.1, h.2.2.2.2.2.2.2.2.1, h.2.2.2.2.2.2.2.2.2⟩

/-! ## The SysTick reload value -/

theorem not32_mask : not32 0x00FFFFFF = 0xFF000000 := by decide

/-- A value below `2^24` has none of the bits 24-31. -/
theorem land_high_mask (x : Nat) (hx : x < 16777216) : x &&& 0xFF000000 = 0 := by
  apply Nat.eq_of_testBit_eq
  intro i
  rw [Nat.testBit_and, Nat.zero_testBit]
  by_cases hi : i < 24
  · have : Nat.testBit 0xFF000000 i = false := by
      interval_cases i <;> rfl
    rw [this, Bool.and_false]
  · have h2 : (2 : Nat) ^ 24 ≤ 2 ^ i := Nat.pow_le_pow_right (by decide) (by omega)
    have : Nat.testBit x i = false := Nat.testBit_lt_two_pow (by omega)
    rw [this, Bool.false_and]

theorem init_systick_timer_rvr (clk tick_hz : Nat) (t : SysTick) :
    (init_systick_timer clk tick_hz t).rvr
      = ((t.rvr &&& 0xFF000000) % W32 ||| sub32 ((clk / tick_hz) % W32) 1) % W32 := by
  simp only [init_systick_timer, not32_mask]

/-- Bits 0-23 of the word that `init_systick_timer` leaves behind `pSRVR` are those of
the count, whatever the word held before. -/
theorem reload_field_of_word (x c : Nat) :
    (((x &&& 0xFF000000) % W32 ||| c) % W32) % 16777216 = c % 16777216 := by
  have hW : W32 = 2 ^ 32 := by decide
  have hF : (16777216 : Nat) = 2 ^ 24 := by decide
  rw [hW, hF]
  apply Nat.eq_of_testBit_eq
  intro i
  simp only [Nat.testBit_mod_two_pow, Nat.testBit_or, Nat.testBit_and]
  by_cases hi : i < 24
  · have hm : Nat.testBit 0xFF000000 i = false := by
      interval_cases i <;> rfl
    have h32 : i < 32 := by omega
    simp [hi, h32, hm]
  · simp [hi]

/-- C9, as amended: for `1 ≤ tick_hz ≤ SYSTICK_TIM_CLK` with a count
`SYSTICK_TIM_CLK / tick_hz - 1` that fits the 24-bit reload register, and any prior
content of the timer registers, the reload-value register holds that count after
`init_systick_timer` (and so does the whole word when its upper byte read as zero
before); for a clock of 16,000,000 and `tick_hz = 1000` it holds 15999. -/
theorem C9_reload_value (clk tick_hz : Nat) (t : SysTick) (h1 : 1 ≤ tick_hz)
    (hle : tick_hz ≤ clk) (hfit : clk / tick_hz - 1 < 16777216) :
    reload_register (init_systick_timer clk tick_hz t) = clk / tick_hz - 1 ∧
    (t.rvr < 16777216 → (init_systick_timer clk tick_hz t).rvr = clk / tick_hz - 1) ∧
    (clk = 16000000 → tick_hz = 1000 →
      reload_register (init_systick_timer clk tick_hz t) = 15999) := by
  have hpos : 1 ≤ clk / tick_hz := (Nat.one_le_div_iff (by omega)).mpr hle
  have hc : sub32 ((clk / tick_hz) % W32) 1 = clk / tick_hz - 1 := by
    unfold sub32 W32
    omega
  have hr : reload_register (init_systick_timer clk tick_hz t) = clk / tick_hz - 1 := by
    unfold reload_register
    rw [init_systick_timer_rvr, reload_field_of_word, hc]
    exact Nat.mod_eq_of_lt hfit
  refine ⟨hr, ?_, ?_⟩
  · intro ht
    rw [init_systick_timer_rvr, land_high_mask _ ht, Nat.zero_mod, Nat.zero_or, hc]
    apply Nat.mod_eq_of_lt
    unfold W32
    omega
  · intro h16 h1000
    rw [hr, h16, h1000]

theorem C9_reload_value_witness :
    1 ≤ 1000 ∧ 1000 ≤ 16000000 ∧ 16000000 / 1000 - 1 < 16777216 ∧
    reload_register
      (init_systick_timer 16000000 1000 { csr := 0, rvr := 0x00123456, cvr := 77 })
      = 15999 :=
  ⟨by decide, by decide, by decide,
    (C9_reload_value 16000000 1000 { csr := 0, rvr := 0x00123456, cvr := 77 } (by decide)
      (by decide) (by decide)).2.2 rfl rfl⟩

/-- C9 as stated fails for a `tick_hz` above the clock: with a clock of 16,000,000 and
`tick_hz = 16,000,001` the count `0 - 1` wraps to `0xFFFFFFFF`, and the 24-bit reload
register holds `0xFFFFFF`, not that count. -/
theorem C9_counterexample :
    1 ≤ 16000001 ∧
    count_value 16000000 16000001 = 0xFFFFFFFF ∧
    reload_register
      (init_systick_timer 16000000 16000001 { csr := 0, rvr := 0, cvr := 0 }) = 0xFFFFFF ∧
    ¬ (reload_register
        (init_systick_timer 16000000 16000001 { csr := 0, rvr := 0, cvr := 0 })
      = count_value 16000000 16000001) := by
  refine ⟨by decide, by decide, by decide, by decide⟩

/-! ## The SysTick control register and the timing error -/

theorem init_systick_timer_csr (clk tick_hz : Nat) (t : SysTick) :
    (init_systick_timer clk tick_hz t).csr
      = (((t.csr ||| 2) % W32 ||| 4) % W32 ||| 1) % W32 := rfl

theorem init_systick_timer_cvr (clk tick_hz : Nat) (t : SysTick) :
    (init_systick_timer clk tick_hz t).cvr = 0 := rfl

theorem csr_testBit (x i : Nat) (hi : i < 32) :
    Nat.testBit ((((x ||| 2) % W32 ||| 4) % W32 ||| 1) % W32) i
      = (Nat.testBit x i || decide (i = 0) || decide (i = 1) || decide (i = 2)) := by
  have hW : W32 = 2 ^ 32 := by decide
  have b1 : ∀ j, Nat.testBit 1 j = decide (j = 0) := by
    intro j
    have : (2 ^ 0).testBit j = decide (0 = j) := Nat.testBit_two_pow
    simpa [eq_comm] using this
  have b2 : ∀ j, Nat.testBit 2 j = decide (j = 1) := by
    intro j
    have : (2 ^ 1).testBit j = decide (1 = j) := Nat.testBit_two_pow
    simpa [eq_comm] using this
  have b4 : ∀ j, Nat.testBit 4 j = decide (j = 2) := by
    intro j
    have : (2 ^ 2).testBit j = decide (2 = j) := Nat.testBit_two_pow
    simpa [eq_comm] using this
  rw [hW]
  simp only [Nat.testBit_mod_two_pow, Nat.testBit_or, b1, b2, b4, hi, decide_True,
    Bool.true_and]
  cases Nat.testBit x i <;> cases decide (i = 0) <;> cases decide (i = 1) <;>
    cases decide (i = 2) <;> rfl

/-- C11: for `tick_hz ≥ 1` and any prior content of the timer registers, after
`init_systick_timer` bits 0 (counter enable), 1 (tick interrupt enable) and 2 (clock
source) of the control/status register are set, each other bit of that 32-bit register
is as before, and the current-value register holds the 0 written to it. -/
theorem C11_control_bits_set (clk tick_hz : Nat) (t : SysTick) (_h1 : 1 ≤ tick_hz) :
    Nat.testBit (init_systick_timer clk tick_hz t).csr 0 = true ∧
    Nat.testBit (init_systick_timer clk tick_hz t).csr 1 = true ∧
    Nat.testBit (init_systick_timer clk tick_hz t).csr 2 = true ∧
    (∀ i, 3 ≤ i → i < 32 →
      Nat.testBit (init_systick_timer clk tick_hz t).csr i = Nat.testBit t.csr i) ∧
    (init_systick_timer clk tick_hz t).csr < W32 ∧
    (init_systick_timer clk tick_hz t).cvr = 0 := by
  rw [init_systick_timer_csr]
  refine ⟨?_, ?_, ?_, ?_, Nat.mod_lt _ (by decide), rfl⟩
  · rw [csr_testBit _ 0 (by decide)]; simp
  · rw [csr_testBit _ 1 (by decide)]; simp
  · rw [csr_testBit _ 2 (by decide)]; simp
  · intro i h3 h32
    rw [csr_testBit _ i h32]
    have e0 : decide (i = 0) = false := decide_eq_false (by omega)
    have e1 : decide (i = 1) = false := decide_eq_false (by omega)
    have e2 : decide (i = 2) = false := decide_eq_false (by omega)
    rw [e0, e1, e2]
    simp

theorem C11_control_bits_set_witness :
    1 ≤ 1000 ∧
    Nat.testBit (init_systick_timer 16000000 1000
      { csr := 0xA5A50000, rvr := 0x00123456, cvr := 77 }).csr 0 = true ∧
    Nat.testBit (init_systick_timer 16000000 1000
      { csr := 0xA5A50000, rvr := 0x00123456, cvr := 77 }).csr 1 = true ∧
    Nat.testBit (init_systick_timer 16000000 1000
      { csr := 0xA5A50000, rvr := 0x00123456, cvr := 77 }).csr 2 = true ∧
    (∀ i, 3 ≤ i → i < 32 →
      Nat.testBit (init_systick_timer 16000000 1000
        { csr := 0xA5A50000, rvr := 0x00123456, cvr := 77 }).csr i
        = Nat.testBit 0xA5A50000 i) ∧
    (init_systick_timer 16000000 1000
      { csr := 0xA5A50000, rvr := 0x00123456, cvr := 77 }).csr < W32 ∧
    (init_systick_timer 16000000 1000
      { csr := 0xA5A50000, rvr := 0x00123456, cvr := 77 }).cvr = 0 :=
  ⟨by decide, C11_control_bits_set 16000000 1000
    { csr := 0xA5A50000, rvr := 0x00123456, cvr := 77 } (by decide)⟩

theorem count_value_eq (clk tick_hz : Nat) (hclk : clk < W32) (hle : tick_hz ≤ clk)
    (h1 : 1 ≤ tick_hz) : count_value clk tick_hz = clk / tick_hz - 1 := by
  have hq : clk / tick_hz < W32 := Nat.lt_of_le_of_lt (Nat.div_le_self _ _) hclk
  have hpos : 1 ≤ clk / tick_hz := (Nat.one_le_div_iff (by omega)).mpr hle
  unfold count_value sub32 W32 at *
  omega

theorem init_systick_timer_rvr_count (clk tick_hz : Nat) (t : SysTick)
    (ht : t.rvr < 16777216) :
    (init_systick_timer clk tick_hz t).rvr = count_value clk tick_hz := by
  have hs : count_value clk tick_hz < W32 := Nat.mod_lt _ (by decide)
  rw [init_systick_timer_rvr, land_high_mask _ ht, Nat.zero_mod, Nat.zero_or]
  exact Nat.mod_eq_of_lt hs

/-- C12: for a 32-bit core clock `C` and `1 ≤ f ≤ C`, the reload count `r = C / f - 1`
that `init_systick_timer` computes (and loads into a reload register whose upper byte
is clear) satisfies `(r + 1) * f ≤ C` and `C - (r + 1) * f < f`, and that error is 0
exactly when `f` divides `C`. -/
theorem C12_timing_error_bounded (C f : Nat) (h1 : 1 ≤ f) (hle : f ≤ C) (hC : C < W32) :
    count_value C f = C / f - 1 ∧
    (∀ t : SysTick, t.rvr < 16777216 → (init_systick_timer C f t).rvr = count_value C f) ∧
    (count_value C f + 1) * f ≤ C ∧
    C - (count_value C f + 1) * f < f ∧
    (C - (count_value C f + 1) * f = 0 ↔ f ∣ C) := by
  have hr := count_value_eq C f hC hle h1
  have hpos : 1 ≤ C / f := (Nat.one_le_div_iff (by omega)).mpr hle
  have hr1 : count_value C f + 1 = C / f := by omega
  have hdm : f * (C / f) + C % f = C := Nat.div_add_mod C f
  have hmul : C / f * f = f * (C / f) := Nat.mul_comm _ _
  have hlt : C % f < f := Nat.mod_lt _ (by omega)
  have herr : C - (count_value C f + 1) * f = C % f := by
    rw [hr1, hmul]; omega
  refine ⟨hr, fun t ht => init_systick_timer_rvr_count C f t ht, ?_, ?_, ?_⟩
  · rw [hr1, hmul]; omega
  · rw [herr]; exact hlt
  · rw [herr]; exact Nat.dvd_iff_mod_eq_zero.symm

theorem C12_timing_error_bounded_witness :
    1 ≤ 3000 ∧ 3000 ≤ 16000000 ∧ 16000000 < W32 ∧
    count_value 16000000 3000 = 16000000 / 3000 - 1 ∧
    (count_value 16000000 3000 + 1) * 3000 ≤ 16000000 ∧
    16000000 - (count_value 16000000 3000 + 1) * 3000 < 3000 ∧
    (16000000 - (count_value 16000000 3000 + 1) * 3000 = 0 ↔ 3000 ∣ 16000000) := by
  have h := C12_timing_error_bounded 16000000 3000 (by decide) (by decide) (by decide)
  exact ⟨by decide, by decide, by decide, h.1, h.2.2.1, h.2.2.2.1, h.2.2.2.2⟩

/-! ## The switch to the process stack -/

theorem init_tasks_stack_globals (N : Nat) (s : State) (m : Mem) :
    (init_tasks_stack N s m).g.task_handlers = s.task_handlers ∧
    (init_tasks_stack N s m).g.current_task = s.current_task :=
  init_tasks_loop_handlers { g := s, mem := m, trace := [] } N

theorem switch_sp_to_psp_some (N ret : Nat) (c : Cpu) (s : State)
    (hs : s.current_task < N) :
    switch_sp_to_psp N ret c s
      = some ({ c with r0 := 2, r1 := c.lr, psp := s.psp_of_tasks s.current_task,
                       lr := c.lr, control := 2 }, s) := by
  simp [switch_sp_to_psp, get_psp_value_some N s hs, BL]

/-- C13: `switch_sp_to_psp`, run after `init_tasks_stack` with `current_task = 0`,
leaves `PSP` equal to the saved pointer `psp_of_tasks[0]` of the first task (64 bytes
below its stack top), `CONTROL` equal to 2 and `LR` equal to its value on entry, and
hands back the globals unchanged. -/
theorem C13_switch_sp_to_psp (N : Nat) (hN : 0 < N) (s : State) (m : Mem) (ret : Nat)
    (c : Cpu) (h0 : s.current_task = 0) :
    ∃ c1, switch_sp_to_psp N ret c (init_tasks_stack N s m).g
        = some (c1, (init_tasks_stack N s m).g) ∧
      c1.psp = (init_tasks_stack N s m).g.psp_of_tasks 0 ∧
      c1.psp = sub32 (s.psp_of_tasks 0) 64 ∧
      c1.control = 2 ∧
      c1.lr = c.lr ∧
      c1.msp = c.msp := by
  have hc : (init_tasks_stack N s m).g.current_task = 0 := by
    rw [(init_tasks_stack_globals N s m).2, h0]
  have hlt : (init_tasks_stack N s m).g.current_task < N := by rw [hc]; exact hN
  rw [switch_sp_to_psp_some N ret c _ hlt, hc]
  exact ⟨_, rfl, rfl, init_tasks_stack_psp N s m 0 hN, rfl, rfl, rfl⟩

theorem C13_switch_sp_to_psp_witness :
    0 < 4 ∧ sample.current_task = 0 ∧
    ∃ c1, switch_sp_to_psp 4 0x08000321 sample_cpu (init_tasks_stack 4 sample sample_mem).g
        = some (c1, (init_tasks_stack 4 sample sample_mem).g) ∧
      c1.psp = (init_tasks_stack 4 sample sample_mem).g.psp_of_tasks 0 ∧
      c1.psp = sub32 (sample.psp_of_tasks 0) 64 ∧
      c1.control = 2 ∧
      c1.lr = sample_cpu.lr ∧
      c1.msp = sample_cpu.msp :=
  ⟨by decide, rfl,
    C13_switch_sp_to_psp 4 (by decide) sample sample_mem 0x08000321 sample_cpu rfl⟩


/-! ## One invocation of the handler -/

theorem save_context_r0 (c : Cpu) (m : Mem) : (save_context c m).1.r0 = sub32 c.psp 32 :=
  (save_context_words c m).1

theorem dispatch_psp (c : Cpu) (v : Nat) (m : Mem) : (dispatch c v m).psp = add32 v 32 := rfl

/-- The globals after the `BL save_psp_value` of the handler. -/
theorem SysTick_Handler_some (N : Nat) (ret : Nat → Nat) (c : Cpu) (s : State) (m : Mem)
    (hs : s.current_task < N) :
    ∃ c1, SysTick_Handler N ret c s m
        = some (dispatch c1
            ((update_next_task N { s with psp_of_tasks := fun i =>
                if i = s.current_task then sub32 c.psp 32 else s.psp_of_tasks i }).psp_of_tasks
              (update_next_task N s).current_task) (save_context c m).2,
          update_next_task N { s with psp_of_tasks := fun i =>
            if i = s.current_task then sub32 c.psp 32 else s.psp_of_tasks i },
          (save_context c m).2) := by
  have hN : 0 < N := by omega
  have hmod : sub32 c.psp 32 % W32 = sub32 c.psp 32 :=
    Nat.mod_eq_of_lt (Nat.mod_lt _ (show 0 < W32 by decide))
  have h1 := save_psp_value_some N (sub32 c.psp 32) s hs
  rw [hmod] at h1
  have h2 := get_psp_value_some N
    (update_next_task N { s with psp_of_tasks := fun i =>
      if i = s.current_task then sub32 c.psp 32 else s.psp_of_tasks i })
    (update_next_task_lt N hN _)
  simp only [SysTick_Handler, BL, save_context_r0, h1, h2]
  exact ⟨_, rfl⟩


theorem update_next_task_small (N : Nat) (h256 : N ≤ 256) (s : State)
    (hs : s.current_task < N) :
    (update_next_task N s).current_task = (s.current_task + 1) % N :=
  ticks_current_small N (by omega) h256 s hs 1

/-- C14, as amended: one invocation of `SysTick_Handler` with at most 256 tasks, a valid
index `c` and process stack pointer `p` sets `psp_of_tasks[c]` to `p - 32`, changes no
other entry of `psp_of_tasks` and no entry of `task_handlers`, makes `current_task`
equal to `(c + 1) mod N`, and leaves `PSP` at the incoming task's saved pointer plus
32; with one task that is `p` again. -/
theorem C14_handler_registry_effect (N : Nat) (ret : Nat → Nat) (c : Cpu) (s : State)
    (m : Mem) (hs : s.current_task < N) (h256 : N ≤ 256) (hp : c.psp < W32) :
    ∃ c1 s1 m1, SysTick_Handler N ret c s m = some (c1, s1, m1) ∧
      s1.psp_of_tasks s.current_task = sub32 c.psp 32 ∧
      (∀ i, i ≠ s.current_task → s1.psp_of_tasks i = s.psp_of_tasks i) ∧
      s1.task_handlers = s.task_handlers ∧
      s1.current_task = (s.current_task + 1) % N ∧
      c1.psp = add32 (s1.psp_of_tasks s1.current_task) 32 ∧
      (N = 1 → c1.psp = c.psp) := by
  obtain ⟨c0, h⟩ := SysTick_Handler_some N ret c s m hs
  refine ⟨_, _, _, h, ?_, ?_, rfl, ?_, ?_, ?_⟩
  · simp [update_next_task_psp]
  · intro i hi
    simp [update_next_task_psp, hi]
  · exact update_next_task_small N h256 _ hs
  · rw [dispatch_psp]
    rfl
  · intro h1
    subst h1
    have hc0 : s.current_task = 0 := by omega
    have hn : (update_next_task 1 s).current_task = 0 := by
      have := update_next_task_lt 1 (by decide) s
      omega
    rw [dispatch_psp, hn, update_next_task_psp]
    simp only [hc0, if_true]
    unfold add32 sub32 W32 at *
    omega

theorem C14_handler_registry_effect_witness :
    sample.current_task < 4 ∧ 4 ≤ 256 ∧ sample_cpu.psp < W32 ∧
    ∃ c1 s1 m1, SysTick_Handler 4 (fun _ => 0x08000321) sample_cpu sample sample_mem
        = some (c1, s1, m1) ∧
      s1.psp_of_tasks sample.current_task = sub32 sample_cpu.psp 32 ∧
      (∀ i, i ≠ sample.current_task → s1.psp_of_tasks i = sample.psp_of_tasks i) ∧
      s1.task_handlers = sample.task_handlers ∧
      s1.current_task = (sample.current_task + 1) % 4 ∧
      c1.psp = add32 (s1.psp_of_tasks s1.current_task) 32 := by
  obtain ⟨c1, s1, m1, h, h1, h2, h3, h4, h5, _⟩ :=
    C14_handler_registry_effect 4 (fun _ => 0x08000321) sample_cpu sample sample_mem
      (by decide) (by decide) (by decide)
  exact ⟨by decide, by decide, by decide, c1, s1, m1, h, h1, h2, h3, h4, h5⟩

/-- C14 as stated fails for `N = 257`: from the valid index 255 the handler makes
`current_task` equal to 0, while `(255 + 1) mod 257 = 256`. -/
theorem C14_counterexample :
    ({ sample with current_task := 255 } : State).current_task < 257 ∧
    ∃ c1 s1 m1,
      SysTick_Handler 257 (fun _ => 0x08000321) sample_cpu { sample with current_task := 255 }
        sample_mem = some (c1, s1, m1) ∧
      s1.current_task = 0 ∧
      ¬ (s1.current_task
          = (({ sample with current_task := 255 } : State).current_task + 1) % 257) := by
  refine ⟨by decide, ?_⟩
  obtain ⟨c0, h⟩ := SysTick_Handler_some 257 (fun _ => 0x08000321) sample_cpu
    { sample with current_task := 255 } sample_mem (by decide)
  refine ⟨_, _, _, h, ?_, ?_⟩
  · decide
  · decide

/-- The save sequence changes no byte outside the 32 bytes below the stack pointer. -/
theorem save_context_other (c : Cpu) (m : Mem) (x : Nat)
    (hx : ∀ d, d < 32 → x ≠ (sub32 c.psp 32 + d) % W32) : (save_context c m).2 x = m x := by
  simp only [save_context]
  have hb : ∀ o y, o + 4 ≤ 32 → y < 4 → x ≠ (sub32 c.psp 32 + o + y) % W32 := by
    intro o y ho hy
    rw [Nat.add_assoc]
    exact hx (o + y) (by omega)
  rw [STR_other _ _ _ _ (fun y hy => hb 28 y (by decide) hy),
    STR_other _ _ _ _ (fun y hy => hb 24 y (by decide) hy),
    STR_other _ _ _ _ (fun y hy => hb 20 y (by decide) hy),
    STR_other _ _ _ _ (fun y hy => hb 16 y (by decide) hy),
    STR_other _ _ _ _ (fun y hy => hb 12 y (by decide) hy),
    STR_other _ _ _ _ (fun y hy => hb 8 y (by decide) hy),
    STR_other _ _ _ _ (fun y hy => hb 4 y (by decide) hy),
    STR_other _ _ _ _ (fun y hy => hb 0 y (by decide) hy)]

/-- C15: one invocation of `SysTick_Handler` stores `R4`-`R11` in the eight words at
`p - 32 .. p - 4` (ascending, offsets 0 to 28 from `p - 32`) and changes no byte outside
those 32 bytes; the restore sequence stores nothing, so the words of the incoming task's
frame that lie outside those bytes are as they were on entry. -/
theorem C15_handler_memory_effect (N : Nat) (ret : Nat → Nat) (c : Cpu) (s : State)
    (m : Mem) (hs : s.current_task < N) (hc : c.valid) :
    ∃ c1 s1 m1, SysTick_Handler N ret c s m = some (c1, s1, m1) ∧
      (∀ x, (∀ d, d < 32 → x ≠ (sub32 c.psp 32 + d) % W32) → m1 x = m x) ∧
      LDR m1 (sub32 c.psp 32 + 0) = c.r4 ∧
      LDR m1 (sub32 c.psp 32 + 4) = c.r5 ∧
      LDR m1 (sub32 c.psp 32 + 8) = c.r6 ∧
      LDR m1 (sub32 c.psp 32 + 12) = c.r7 ∧
      LDR m1 (sub32 c.psp 32 + 16) = c.r8 ∧
      LDR m1 (sub32 c.psp 32 + 20) = c.r9 ∧
      LDR m1 (sub32 c.psp 32 + 24) = c.r10 ∧
      LDR m1 (sub32 c.psp 32 + 28) = c.r11 ∧
      m1 = (save_context c m).2 ∧
      (∀ j, j < 8 →
        (∀ y d, y < 4 → d < 32 →
          (s1.psp_of_tasks s1.current_task + 4 * j + y) % W32
            ≠ (sub32 c.psp 32 + d) % W32) →
        LDR m1 (s1.psp_of_tasks s1.current_task + 4 * j)
          = LDR m (s1.psp_of_tasks s1.current_task + 4 * j)) := by
  obtain ⟨c0, h⟩ := SysTick_Handler_some N ret c s m hs
  obtain ⟨_, h4, h5, h6, h7, h8, h9, h10, h11⟩ := save_context_words c m
  obtain ⟨_, _, _, _, v4, v5, v6, v7, v8, v9, v10, v11, _⟩ := hc
  refine ⟨_, _, _, h, fun x hx => save_context_other c m x hx, ?_, ?_, ?_, ?_, ?_, ?_, ?_, ?_,
    rfl, ?_⟩
  · rw [h4]; exact Nat.mod_eq_of_lt v4
  · rw [h5]; exact Nat.mod_eq_of_lt v5
  · rw [h6]; exact Nat.mod_eq_of_lt v6
  · rw [h7]; exact Nat.mod_eq_of_lt v7
  · rw [h8]; exact Nat.mod_eq_of_lt v8
  · rw [h9]; exact Nat.mod_eq_of_lt v9
  · rw [h10]; exact Nat.mod_eq_of_lt v10
  · rw [h11]; exact Nat.mod_eq_of_lt v11
  · intro j _ hj
    apply LDR_congr
    intro y hy
    exact save_context_other c m _ (fun d hd => hj y d hy hd)

theorem C15_handler_memory_effect_witness :
    sample.current_task < 4 ∧ sample_cpu.valid ∧
    ∃ c1 s1 m1, SysTick_Handler 4 (fun _ => 0x08000321) sample_cpu sample sample_mem
        = some (c1, s1, m1) ∧
      (∀ x, (∀ d, d < 32 → x ≠ (sub32 sample_cpu.psp 32 + d) % W32) → m1 x = sample_mem x) ∧
      LDR m1 (sub32 sample_cpu.psp 32 + 0) = sample_cpu.r4 ∧
      LDR m1 (sub32 sample_cpu.psp 32 + 4) = sample_cpu.r5 ∧
      LDR m1 (sub32 sample_cpu.psp 32 + 8) = sample_cpu.r6 ∧
      LDR m1 (sub32 sample_cpu.psp 32 + 12) = sample_cpu.r7 ∧
      LDR m1 (sub32 sample_cpu.psp 32 + 16) = sample_cpu.r8 ∧
      LDR m1 (sub32 sample_cpu.psp 32 + 20) = sample_cpu.r9 ∧
      LDR m1 (sub32 sample_cpu.psp 32 + 24) = sample_cpu.r10 ∧
      LDR m1 (sub32 sample_cpu.psp 32 + 28) = sample_cpu.r11 := by
  obtain ⟨c1, s1, m1, h, h0, h4, h5, h6, h7, h8, h9, h10, h11, _⟩ :=
    C15_handler_memory_effect 4 (fun _ => 0x08000321) sample_cpu sample sample_mem
      (by decide) sample_cpu_valid
  exact ⟨by decide, sample_cpu_valid, c1, s1, m1, h, h0, h4, h5, h6, h7, h8, h9, h10, h11⟩

/-! ## Disjoint and overlapping frames -/

theorem frames_disjoint_of_apart32 (N : Nat) (tops : Nat → Nat)
    (h : tops_apart32 N tops) : frames_disjoint N tops := by
  intro i j hi hj hij d e hd he
  have h1 := h i j hi hj hij
  have h2 := h j i hj hi (Ne.symm hij)
  unfold sub32 frame_byte W32 at *
  omega

theorem tops_apart32_of_apart (N : Nat) (tops : Nat → Nat)
    (hr : ∀ i, i < N → 64 ≤ tops i ∧ tops i < W32) (h : tops_apart N tops) :
    tops_apart32 N tops := by
  intro i j hi hj hij
  have h1 := h i j hi hj hij
  have ri := hr i hi
  have rj := hr j hj
  unfold sub32 W32 at *
  omega

/-- Byte `d` below a stack top lies in word `d / 4` of the frame. -/
theorem frame_byte_in_word (top d : Nat) (hd : d < 64) :
    (sub32 top (4 * (d / 4 + 1)) + (3 - d % 4)) % W32 = frame_byte top d := by
  unfold sub32 frame_byte W32
  omega

theorem frames_intact_of_disjoint (N : Nat) (s : State) (m : Mem)
    (hd : frames_disjoint N s.psp_of_tasks) : frames_intact N s m := by
  constructor
  · intro i j wi wj hi hj hij hwi hwj a b ha hb hov
    rw [init_tasks_stack_trace_get N s m i hi] at hwi
    rw [init_tasks_stack_trace_get N s m j hj] at hwj
    cases hwi
    cases hwj
    rw [init_task_frame_written_addr] at ha hb
    rcases List.mem_map.mp ha with ⟨k, hk, rfl⟩
    rcases List.mem_map.mp hb with ⟨l, hl, rfl⟩
    have hk2 := List.mem_range.mp hk
    have hl2 := List.mem_range.mp hl
    rcases hov with ⟨y, z, hy, hz, hyz⟩
    rw [word_byte_eq _ (k + 1) y (by omega) (by unfold W32; omega) hy,
      word_byte_eq _ (l + 1) z (by omega) (by unfold W32; omega) hz] at hyz
    exact hd i j hi hj hij _ _ (by omega) (by omega) hyz
  · intro i k hi hk
    exact init_tasks_loop_content N { g := s, mem := m, trace := [] } hd N (Nat.le_refl N)
      i hi k hk

/-- Two tops less than 64 bytes apart: the byte just below the lower top belongs to a
word stored for either task. -/
theorem frames_overlap_of_close (N : Nat) (s : State) (m : Mem) (i j : Nat)
    (hi : i < N) (hj : j < N)
    (h1 : s.psp_of_tasks i < s.psp_of_tasks j + 64)
    (h2 : s.psp_of_tasks j < s.psp_of_tasks i + 64) :
    ∃ wi wj, (init_tasks_stack N s m).trace[i]? = some wi ∧
      (init_tasks_stack N s m).trace[j]? = some wj ∧
      ∃ a b, a ∈ wi.map Prod.fst ∧ b ∈ wj.map Prod.fst ∧ words_overlap a b := by
  refine ⟨_, _, init_tasks_stack_trace_get N s m i hi, init_tasks_stack_trace_get N s m j hj,
    ?_⟩
  simp only [init_task_frame_written_addr]
  -- the distances of the shared byte below the two tops
  obtain ⟨d, e, hd, he, hde⟩ : ∃ d e, d < 64 ∧ e < 64 ∧
      frame_byte (s.psp_of_tasks i) d = frame_byte (s.psp_of_tasks j) e := by
    rcases Nat.le_total (s.psp_of_tasks i) (s.psp_of_tasks j) with hle | hle
    · refine ⟨0, s.psp_of_tasks j - s.psp_of_tasks i, by decide, by omega, ?_⟩
      unfold frame_byte W32
      omega
    · refine ⟨s.psp_of_tasks i - s.psp_of_tasks j, 0, by omega, by decide, ?_⟩
      unfold frame_byte W32
      omega
  refine ⟨sub32 (s.psp_of_tasks i) (4 * (d / 4 + 1)), sub32 (s.psp_of_tasks j) (4 * (e / 4 + 1)),
    List.mem_map.mpr ⟨d / 4, List.mem_range.mpr (by omega), rfl⟩,
    List.mem_map.mpr ⟨e / 4, List.mem_range.mpr (by omega), rfl⟩,
    3 - d % 4, 3 - e % 4, by omega, by omega, ?_⟩
  rw [frame_byte_in_word _ d hd, frame_byte_in_word _ e he, hde]

/-- C16: when the stack tops are pairwise at least 64 bytes apart (each top having 64
bytes of address space below it, or the distance being taken on the 32-bit address
ring), the byte ranges stored to for distinct tasks are disjoint, no store for one task
touches a word stored for another, and every frame holds its fabricated contents at the
end; when two tops are less than 64 bytes apart, the ranges are not disjoint and a word
stored for one task shares a byte with a word stored for the other. -/
theorem C16_frames_disjoint_when_apart (N : Nat) (s : State) (m : Mem) :
    ((∀ i, i < N → 64 ≤ s.psp_of_tasks i ∧ s.psp_of_tasks i < W32) →
      tops_apart N s.psp_of_tasks →
      frames_disjoint N s.psp_of_tasks ∧ frames_intact N s m) ∧
    (tops_apart32 N s.psp_of_tasks →
      frames_disjoint N s.psp_of_tasks ∧ frames_intact N s m) ∧
    (∀ i j, i < N → j < N → i ≠ j →
      s.psp_of_tasks i < s.psp_of_tasks j + 64 → s.psp_of_tasks j < s.psp_of_tasks i + 64 →
      ¬ frames_disjoint N s.psp_of_tasks ∧
      ∃ wi wj, (init_tasks_stack N s m).trace[i]? = some wi ∧
        (init_tasks_stack N s m).trace[j]? = some wj ∧
        ∃ a b, a ∈ wi.map Prod.fst ∧ b ∈ wj.map Prod.fst ∧ words_overlap a b) := by
  have key : tops_apart32 N s.psp_of_tasks →
      frames_disjoint N s.psp_of_tasks ∧ frames_intact N s m := fun h =>
    ⟨frames_disjoint_of_apart32 N _ h,
      frames_intact_of_disjoint N s m (frames_disjoint_of_apart32 N _ h)⟩
  refine ⟨fun hr h => key (tops_apart32_of_apart N _ hr h), key, ?_⟩
  intro i j hi hj hij h1 h2
  have hov := frames_overlap_of_close N s m i j hi hj h1 h2
  refine ⟨?_, hov⟩
  intro hd
  obtain ⟨wi, wj, hwi, hwj, a, b, ha, hb, hab⟩ := hov
  exact (frames_intact_of_disjoint N s m hd).1 i j wi wj hi hj hij hwi hwj a b ha hb hab

theorem C16_frames_disjoint_when_apart_witness :
    (∀ i, i < 4 → 64 ≤ sample.psp_of_tasks i ∧ sample.psp_of_tasks i < W32) ∧
    tops_apart 4 sample.psp_of_tasks ∧
    (frames_disjoint 4 sample.psp_of_tasks ∧ frames_intact 4 sample sample_mem) ∧
    0 < 4 ∧ 1 < 4 ∧ 0 ≠ 1 ∧
    cramped.psp_of_tasks 0 < cramped.psp_of_tasks 1 + 64 ∧
    cramped.psp_of_tasks 1 < cramped.psp_of_tasks 0 + 64 ∧
    ¬ frames_disjoint 4 cramped.psp_of_tasks := by
  have hr : ∀ i, i < 4 → 64 ≤ sample.psp_of_tasks i ∧ sample.psp_of_tasks i < W32 := by
    intro i hi
    simp only [sample, boot, W32]
    omega
  have ha : tops_apart 4 sample.psp_of_tasks := by
    intro i j hi hj hij
    simp only [sample, boot]
    omega
  exact ⟨hr, ha, (C16_frames_disjoint_when_apart 4 sample sample_mem).1 hr ha,
    by decide, by decide, by decide, by decide, by decide,
    ((C16_frames_disjoint_when_apart 4 cramped sample_mem).2.2 0 1 (by decide) (by decide)
      (by decide) (by decide) (by decide)).1⟩

end Sched
